import Mathlib

/-!
Shallow embedding of the chunked voxel world subsystem (class `World` of
`src/World.ts`, reached through `src/ItemEntity.ts`'s import) and proofs of
the frozen claims about it.

Conventions of the embedding:
* JS numbers used as integers are `Int`/`Nat`; `Math.floor(x / 16)` on an
  integer `x` is `Int.fdiv x 16`; JS floats holding fractional values
  (noise samples, `Math.random()` draws, player positions) are `ℚ`.
* A `Uint8Array` chunk volume is a total function `Nat → Nat`; every write
  stores `v % 256`, mirroring the `Uint8Array` byte coercion.
* A JS `Map` is an insertion-ordered association list with `Map.set` /
  `Map.get` / `Map.delete` semantics; a JS `Set` is an insertion-ordered
  list with `Set.add` / `Set.delete` semantics.
* `Math.random()` is an ambient stream of rationals, modelled as a function
  `Nat → ℚ` together with a cursor that each draw advances.
* IndexedDB (the `worldDB` module) is a `Store` value threaded explicitly;
  asynchronous store operations are applied at their resolution point on
  the single logical thread, per the design's concurrency model.
-/

namespace VoxelWorld

/-- `this.chunkSize` of `World` (`S` in the spec). -/
def chunkSize : Nat := 16

/-- `BLOCK.AIR`. -/
def AIR : Nat := 0

/-- `BLOCK.GRASS`. -/
def GRASS : Nat := 1

/-- `BLOCK.DIRT`. -/
def DIRT : Nat := 2

/-- `BLOCK.STONE`. -/
def STONE : Nat := 3

/-- `BLOCK.BEDROCK`. -/
def BEDROCK : Nat := 4

/-- `BLOCK.WOOD`. -/
def WOOD : Nat := 5

/-- `BLOCK.LEAVES`. -/
def LEAVES : Nat := 6

/-- A chunk key: the integer pair `(cx, cz)` that the source encodes as the
string `"cx,cz"` (the encoding is injective, so the pair itself serves as
the key). -/
abbrev Key := Int × Int

/-- A chunk volume: the `Uint8Array(chunkSize^3)` backing one chunk, as a
total function from flat index to stored byte. -/
abbrev Vol := Nat → Nat

/-- Writing one cell of a `Uint8Array`: the stored value is coerced to a
byte (`v % 256`). -/
def volWrite (d : Vol) (i v : Nat) : Vol := fun j => if j = i then v % 256 else d j

/-- A fresh `new Uint8Array(...)`: all zeroes. -/
def vol0 : Vol := fun _ => 0

/-- `World.getBlockIndex(x, y, z) = x + y * chunkSize + z * chunkSize * chunkSize`
on local coordinates. -/
def blockIndex (x y z : Nat) : Nat := x + y * chunkSize + z * chunkSize * chunkSize

/-- `Map.get`: value of the first (and, in a well-formed map, only) entry
with the given key. -/
def mapLookup {α : Type} : List (Key × α) → Key → Option α
  | [], _ => none
  | (k', v) :: rest, k => if k' = k then some v else mapLookup rest k

/-- `Map.set`: replace the entry in place if the key is present, otherwise
append a new entry (JS `Map` preserves insertion order). -/
def mapSet {α : Type} : List (Key × α) → Key → α → List (Key × α)
  | [], k, v => [(k, v)]
  | (k', v') :: rest, k, v =>
    if k' = k then (k, v) :: rest else (k', v') :: mapSet rest k v

/-- `Map.delete`: remove the first entry with the given key. -/
def mapErase {α : Type} : List (Key × α) → Key → List (Key × α)
  | [], _ => []
  | (k', v') :: rest, k => if k' = k then rest else (k', v') :: mapErase rest k

/-- `Set.add`: append the element if it is not already present. -/
def setAdd (s : List Key) (k : Key) : List Key := if k ∈ s then s else s ++ [k]

/-- `Set.delete`: remove the element if present. -/
def setDel : List Key → Key → List Key
  | [], _ => []
  | k' :: rest, k => if k' = k then rest else k' :: setDel rest k

/-- The sides of a voxel, in the order the mesher tests them. -/
inductive Side
  | top
  | bottom
  | front
  | back
  | right
  | left
deriving DecidableEq

/-- One emitted quad of `generateChunkMesh`: the voxel's local coordinates,
its block type, and the side the face covers. -/
structure Face where
  fx : Nat
  fy : Nat
  fz : Nat
  ftype : Nat
  side : Side
deriving DecidableEq

/-- The unit offset toward the neighbor each side faces. -/
def sideOffset : Side → Int × Int × Int
  | .top => (0, 1, 0)
  | .bottom => (0, -1, 0)
  | .front => (0, 0, 1)
  | .back => (0, 0, -1)
  | .right => (1, 0, 0)
  | .left => (-1, 0, 0)

/-- The six sides in the order the source checks them
(top, bottom, front, back, right, left). -/
def sidesList : List Side := [.top, .bottom, .front, .back, .right, .left]

/-- The opposite of each side (the direction from a voxel's neighbor back
to the voxel). -/
def oppositeSide : Side → Side
  | .top => .bottom
  | .bottom => .top
  | .front => .back
  | .back => .front
  | .right => .left
  | .left => .right

/-- Whether a (possibly out-of-chunk) local coordinate triple is inside the
chunk's local bounds. -/
def inBounds (p : Int × Int × Int) : Prop :=
  0 ≤ p.1 ∧ p.1 < 16 ∧ 0 ≤ p.2.1 ∧ p.2.1 < 16 ∧ 0 ≤ p.2.2 ∧ p.2.2 < 16

instance (p : Int × Int × Int) : Decidable (inBounds p) := by
  unfold inBounds; infer_instance

/-- Flat index of an in-bounds integer coordinate triple. -/
def idxI (p : Int × Int × Int) : Nat := (p.1 + p.2.1 * 16 + p.2.2 * 16 * 16).toNat

/-- `isTransparent` of `generateChunkMesh`: air and leaves count as
transparent. -/
def isTransparent (t : Nat) : Prop := t = AIR ∨ t = LEAVES

instance (t : Nat) : Decidable (isTransparent t) := by
  unfold isTransparent; infer_instance

/-- `checkNeighbor` of `generateChunkMesh`: a neighbor outside the chunk's
local bounds is assumed transparent; otherwise its stored block type must
be transparent. -/
def checkNeighbor (data : Vol) (p : Int × Int × Int) : Prop :=
  ¬ inBounds p ∨ isTransparent (data (idxI p))

instance (data : Vol) (p : Int × Int × Int) : Decidable (checkNeighbor data p) := by
  unfold checkNeighbor; infer_instance

/-- The neighbor coordinate of local voxel `(x, y, z)` on a given side. -/
def nbrPos (x y z : Nat) (s : Side) : Int × Int × Int :=
  ((x : Int) + (sideOffset s).1, (y : Int) + (sideOffset s).2.1,
    (z : Int) + (sideOffset s).2.2)

/-- The faces the mesher emits for one voxel: none for air, otherwise one
face per side whose neighbor passes `checkNeighbor`, in source order. -/
def voxelFaces (data : Vol) (x y z : Nat) : List Face :=
  let t := data (blockIndex x y z)
  if t = AIR then []
  else
    (sidesList.filter (fun s => decide (checkNeighbor data (nbrPos x y z s)))).map
      (fun s => { fx := x, fy := y, fz := z, ftype := t, side := s })

/-- All local voxel coordinates, in the mesher's loop order
(`x` outer, then `y`, then `z`). -/
def allCoords : List (Nat × Nat × Nat) :=
  (List.range chunkSize).flatMap fun x =>
    (List.range chunkSize).flatMap fun y =>
      (List.range chunkSize).map fun z => (x, y, z)

/-- The full emitted face list of `generateChunkMesh` for one volume. -/
def meshFaces (data : Vol) : List Face :=
  allCoords.flatMap fun c => voxelFaces data c.1 c.2.1 c.2.2

/-- The four vertex positions `addFace` pushes for a face, in source order. -/
def faceVerts (f : Face) : List (Int × Int × Int) :=
  let x0 : Int := f.fx
  let x1 : Int := x0 + 1
  let y0 : Int := f.fy
  let y1 : Int := y0 + 1
  let z0 : Int := f.fz
  let z1 : Int := z0 + 1
  match f.side with
  | .top => [(x0, y1, z1), (x1, y1, z1), (x0, y1, z0), (x1, y1, z0)]
  | .bottom => [(x0, y0, z0), (x1, y0, z0), (x0, y0, z1), (x1, y0, z1)]
  | .front => [(x0, y0, z1), (x1, y0, z1), (x0, y1, z1), (x1, y1, z1)]
  | .back => [(x1, y0, z0), (x0, y0, z0), (x1, y1, z0), (x0, y1, z0)]
  | .right => [(x1, y0, z1), (x1, y0, z0), (x1, y1, z1), (x1, y1, z0)]
  | .left => [(x0, y0, z0), (x0, y0, z1), (x0, y1, z0), (x0, y1, z1)]

/-- The concatenated vertex position stream of the chunk mesh. -/
def meshPositions (data : Vol) : List (Int × Int × Int) :=
  (meshFaces data).flatMap faceVerts

/-- The triangle index stream: for each group of 4 vertices the source
pushes the two triangles `(i, i+1, i+2)` and `(i+2, i+1, i+3)`. -/
def quadIndices (n : Nat) (i : Nat) : List Nat :=
  if i < n then [i, i + 1, i + 2, i + 2, i + 1, i + 3] ++ quadIndices n (i + 4) else []
termination_by n - i
decreasing_by omega

/-- `TERRAIN_SCALE`. -/
def TERRAIN_SCALE : ℚ := 50

/-- `TERRAIN_HEIGHT`. -/
def TERRAIN_HEIGHT : ℚ := 8

/-- `OFFSET`. -/
def OFFSET : Int := 4

/-- The block type the height pass stores at level `y` of a column of
height `h`: `STONE`, overridden to `BEDROCK` at `y = 0`, `GRASS` at
`y = h`, `DIRT` when `y ≥ h - 3`. -/
def colType (y h : Nat) : Nat :=
  if y = 0 then BEDROCK
  else if y = h then GRASS
  else if h ≤ y + 3 then DIRT
  else STONE

/-- The column height `generateChunk` computes at local `(x, z)` of chunk
`(cx, cz)`: `floor(noise2D(worldX / 50, worldZ / 50) * 8) + 4`, then
`if (height < 1) height = 1; if (height >= 16) height = 15`. -/
def heightAt (noise2D : ℚ → ℚ → ℚ) (cx cz : Int) (x z : Nat) : Nat :=
  let raw : Int :=
    ⌊noise2D ((cx * 16 + (x : Int)) / TERRAIN_SCALE)
        ((cz * 16 + (z : Int)) / TERRAIN_SCALE) * TERRAIN_HEIGHT⌋ + OFFSET
  (if raw < 1 then 1 else if 16 ≤ raw then 15 else raw).toNat

/-- The inner `for (let y = 0; y <= height; y++)` loop of the height pass,
writing the first `n` levels of the column for height `h`. -/
def fillAux (x z h : Nat) (n : Nat) (d : Vol) : Vol :=
  (List.range n).foldl (fun d y => volWrite d (blockIndex x y z) (colType y h)) d

/-- One column of the height pass (levels `0 .. h` inclusive). -/
def fillColumn (x z h : Nat) (d : Vol) : Vol := fillAux x z h (h + 1) d

/-- Pass 1 of `generateChunk`: the height pass over every local column of
chunk `(cx, cz)`, starting from a zeroed volume. -/
def terrainPass (noise2D : ℚ → ℚ → ℚ) (cx cz : Int) : Vol :=
  (List.range chunkSize).foldl
    (fun d x =>
      (List.range chunkSize).foldl
        (fun d z => fillColumn x z (heightAt noise2D cx cz x z) d) d)
    vol0

/-- The tree pass's surface search: the greatest `y` with a non-air block
in the column, `-1` if the column is empty. -/
def topmost (d : Vol) (x z : Nat) : Int :=
  match (List.range chunkSize).reverse.find?
      (fun y => decide (d (blockIndex x y z) ≠ AIR)) with
  | some y => (y : Int)
  | none => -1

/-- Generation state: the volume under construction and the cursor into the
ambient `Math.random()` stream. -/
structure GenSt where
  d : Vol
  ix : Nat

/-- One cell of the canopy loops of `placeTree`: the corner-rounding draw
(consumed before the bounds test, exactly as in the source), the bounds
test, and the leaves write that never overwrites trunk wood. -/
def leafCell (rand : Nat → ℚ) (startX startZ : Nat) (radius : Int) (y x z : Int)
    (st : GenSt) : GenSt :=
  let dx : Int := x - startX
  let dz : Int := z - startZ
  let write : GenSt → GenSt := fun st =>
    if 0 ≤ x ∧ x < 16 ∧ 0 ≤ y ∧ y < 16 ∧ 0 ≤ z ∧ z < 16 then
      let i := (x + y * 16 + z * 16 * 16).toNat
      if st.d i ≠ WOOD then ⟨volWrite st.d i LEAVES, st.ix⟩ else st
    else st
  if |dx| = radius ∧ |dz| = radius then
    if rand st.ix < 2 / 5 then ⟨st.d, st.ix + 1⟩
    else write ⟨st.d, st.ix + 1⟩
  else write st

/-- `placeTree(data, startX, startY, startZ)`: a trunk of height
`floor(random() * 2) + 4` rooted at `startY`, then a 4-layer volumetric
canopy of leaves with randomly rounded corners. -/
def placeTree (rand : Nat → ℚ) (st : GenSt) (startX startY startZ : Nat) : GenSt :=
  let trunkHeight : Int := ⌊rand st.ix * 2⌋ + 4
  let d1 := (List.range trunkHeight.toNat).foldl
    (fun d y =>
      if startY + y < chunkSize then
        volWrite d (blockIndex startX (startY + y) startZ) WOOD
      else d)
    st.d
  let leavesStart : Int := (startY : Int) + trunkHeight - 2
  -- `leavesEnd = startY + trunkHeight + 1 = leavesStart + 3`, so the `y`
  -- loop always runs over the 4 values `leavesStart .. leavesStart + 3`.
  (List.range 4).foldl
    (fun st dy0 =>
      let y : Int := leavesStart + dy0
      let dy : Int := y - ((startY : Int) + trunkHeight - 1)
      let radius : Int := if dy = 2 then 1 else 2
      (List.range (2 * radius + 1).toNat).foldl
        (fun st dx0 =>
          let x : Int := (startX : Int) - radius + dx0
          (List.range (2 * radius + 1).toNat).foldl
            (fun st dz0 =>
              let z : Int := (startZ : Int) - radius + dz0
              leafCell rand startX startZ radius y x z st)
            st)
        st)
    ⟨d1, st.ix + 1⟩

/-- One column of the tree pass: skip columns within 2 cells of a chunk
edge, find the surface, and on a grass surface roll the 1% tree chance. -/
def treeStep (rand : Nat → ℚ) (st : GenSt) (x z : Nat) : GenSt :=
  if x < 2 ∨ chunkSize - 2 ≤ x ∨ z < 2 ∨ chunkSize - 2 ≤ z then st
  else
    let h := topmost st.d x z
    if 0 < h then
      if st.d (blockIndex x h.toNat z) = GRASS then
        if rand st.ix < 1 / 100 then placeTree rand ⟨st.d, st.ix + 1⟩ x (h.toNat + 1) z
        else ⟨st.d, st.ix + 1⟩
      else st
    else st

/-- Pass 2 of `generateChunk`: the vegetation pass over every local
column. -/
def treePass (rand : Nat → ℚ) (d : Vol) (ix : Nat) : GenSt :=
  (List.range chunkSize).foldl
    (fun st x => (List.range chunkSize).foldl (fun st z => treeStep rand st x z) st)
    ⟨d, ix⟩

/-- The full volume `generateChunk` produces for chunk `(cx, cz)` (height
pass then vegetation pass), together with the advanced random cursor. -/
def generateChunkData (noise2D : ℚ → ℚ → ℚ) (rand : Nat → ℚ) (ix : Nat)
    (cx cz : Int) : GenSt :=
  treePass rand (terrainPass noise2D cx cz) ix

/-- One step of the Mulberry32 output scrambler on the accumulator `a`
(all bitwise steps act on the value mod `2^32`, exactly as JS 32-bit
operations do; `Math.imul` is multiplication mod `2^32`). -/
def mulberryOut (a : Nat) : Nat :=
  let t0 := a % 4294967296
  let t1 := Nat.xor t0 (t0 >>> 15) * (t0 ||| 1) % 4294967296
  let t2 := Nat.xor t1 ((t1 + Nat.xor t1 (t1 >>> 7) * (t1 ||| 61) % 4294967296)
    % 4294967296) % 4294967296
  Nat.xor t2 (t2 >>> 14) % 4294967296

/-- The Mulberry32 stream of `createNoiseGenerator`: call `n` (0-based)
first advances the accumulator by `0x6D2B79F5` (the accumulator itself is
never truncated in the source) and yields `out / 2^32 ∈ [0, 1)`. -/
def mulberryStream (seed : Nat) (n : Nat) : ℚ :=
  (mulberryOut (seed + (n + 1) * 0x6D2B79F5) : ℚ) / 4294967296

/-- The `meta` record of the `player` store: viewer position, the opaque
inventory snapshot, and the world seed. -/
structure Meta where
  posX : ℚ
  posY : ℚ
  posZ : ℚ
  inventory : Nat
  seed : Nat

/-- The durable store (`worldDB`): the `chunks` namespace and the singleton
`player/meta` record. -/
structure Store where
  chunks : List (Key × Vol)
  meta : Option Meta

/-- One chunk's renderable mesh: its world-space origin and its emitted
face list (the geometry attribute streams derive from the faces). -/
structure Mesh where
  originX : Int
  originZ : Int
  faces : List Face

/-- `generateChunkMesh(data, cx, cz)` positioned at
`(cx * chunkSize, 0, cz * chunkSize)`. -/
def generateChunkMesh (data : Vol) (cx cz : Int) : Mesh :=
  ⟨cx * 16, cz * 16, meshFaces data⟩

/-- The `World` instance state: visual meshes, the RAM chunk cache, the
dirty / known / in-flight key sets, the seed and its derived noise
function, and the ambient random stream with its cursor. -/
structure World where
  chunks : List (Key × Mesh)
  chunksData : List (Key × Vol)
  dirtyChunks : List Key
  knownChunkKeys : List Key
  loadingChunks : List Key
  seed : Nat
  noise2D : ℚ → ℚ → ℚ
  rand : Nat → ℚ
  randIx : Nat

/-- A fresh `new World(scene)` with the given seed draw: every collection
empty, `noise2D = createNoise2D(mulberry32(seed))`.  The third-party
`createNoise2D` is the parameter `cn2d`, an arbitrary deterministic
function of the random source (modelled from the spec, §4.1: the library
combines the seeded PRNG with a coherent-noise algorithm and is a pure
function of its inputs). -/
def World.init (cn2d : (Nat → ℚ) → ℚ → ℚ → ℚ) (seed : Nat) (rand : Nat → ℚ) : World :=
  ⟨[], [], [], [], [], seed, cn2d (mulberryStream seed), rand, 0⟩

/-- The chunk key of a world coordinate: `(floor(x / 16), floor(z / 16))`. -/
def chunkKey (x z : Int) : Key := (x.fdiv 16, z.fdiv 16)

/-- The flat index of a world coordinate inside its chunk:
`localX + y * 16 + localZ * 256` with `localX = x - cx * 16`,
`localZ = z - cz * 16`. -/
def localIndex (x y z : Int) : Nat :=
  ((x - x.fdiv 16 * 16) + y * 16 + (z - z.fdiv 16 * 16) * 16 * 16).toNat

/-- `World.getBlock(x, y, z)`: air for an uncached chunk or out-of-range
`y`, otherwise the stored byte. -/
def getBlock (w : World) (x y z : Int) : Nat :=
  match mapLookup w.chunksData (chunkKey x z) with
  | none => 0
  | some data => if y < 0 ∨ 16 ≤ y then 0 else data (localIndex x y z)

/-- `World.hasBlock(x, y, z)`: false for an uncached chunk or out-of-range
`y`, otherwise whether the stored byte is non-air. -/
def hasBlock (w : World) (x y z : Int) : Bool :=
  match mapLookup w.chunksData (chunkKey x z) with
  | none => false
  | some data => if y < 0 ∨ 16 ≤ y then false else decide (data (localIndex x y z) ≠ AIR)

/-- `World.isChunkLoaded(x, z)`. -/
def isChunkLoaded (w : World) (x z : Int) : Bool :=
  (mapLookup w.chunksData (chunkKey x z)).isSome

/-- `World.setBlock(x, y, z, type)`: a no-op if the chunk is not cached or
`y` is out of range; otherwise write the byte, mark the chunk dirty, and
synchronously replace the chunk's mesh with a rebuild from the updated
volume. -/
def setBlock (w : World) (x y z : Int) (ty : Nat) : World :=
  let key := chunkKey x z
  match mapLookup w.chunksData key with
  | none => w
  | some data =>
    if y < 0 ∨ 16 ≤ y then w
    else
      let data' := volWrite data (localIndex x y z) ty
      { w with
        chunksData := mapSet w.chunksData key data'
        dirtyChunks := setAdd w.dirtyChunks key
        chunks := mapSet w.chunks key (generateChunkMesh data' key.1 key.2) }

/-- `World.buildChunkMesh(cx, cz, data)`: add a mesh for the chunk unless
one already exists. -/
def buildChunkMesh (w : World) (cx cz : Int) (data : Vol) : World :=
  let key : Key := (cx, cz)
  if (mapLookup w.chunks key).isSome then w
  else { w with chunks := mapSet w.chunks key (generateChunkMesh data cx cz) }

/-- `World.generateChunk(cx, cz)`: generate the volume, cache it, mark the
chunk dirty, and build its mesh. -/
def generateChunk (w : World) (cx cz : Int) : World :=
  let st := generateChunkData w.noise2D w.rand w.randIx cx cz
  let key : Key := (cx, cz)
  let w1 :=
    { w with
      chunksData := mapSet w.chunksData key st.d
      dirtyChunks := setAdd w.dirtyChunks key
      randIx := st.ix }
  buildChunkMesh w1 cx cz st.d

/-- `World.ensureChunk(cx, cz, key)`: RAM cache first, then the durable
store for known keys (with the generate fallback when the index lies),
then fresh generation.  The asynchronous fetch is applied at its
resolution point; the in-flight guard leaves the in-flight set unchanged
net of the `finally`. -/
def ensureChunk (w : World) (db : Store) (cx cz : Int) : World :=
  let key : Key := (cx, cz)
  match mapLookup w.chunksData key with
  | some data => buildChunkMesh w cx cz data
  | none =>
    if key ∈ w.knownChunkKeys then
      if key ∈ w.loadingChunks then w
      else
        match mapLookup db.chunks key with
        | some data =>
          buildChunkMesh { w with chunksData := mapSet w.chunksData key data } cx cz data
        | none => generateChunk w cx cz
    else generateChunk w cx cz

/-- The write list `saveWorld` issues: every currently dirty key paired
with its cached volume, skipping dirty keys with no cached data. -/
def saveWrites (w : World) : List (Key × Vol) :=
  w.dirtyChunks.filterMap fun k => (mapLookup w.chunksData k).map fun v => (k, v)

/-- `World.saveWorld(playerData)`: persist the meta record, issue a write
per dirty chunk with data (adding each to the known keys synchronously),
and clear the dirty set only when every write resolves.  `ok` tells which
per-chunk writes succeed; a failed write leaves its key unwritten and
makes the aggregate `Promise.all` reject, so `dirtyChunks.clear()` never
runs.  The returned flag is that aggregate success. -/
def saveWorld (pos : ℚ × ℚ × ℚ) (inventory : Nat) (ok : Key → Bool) (w : World)
    (db : Store) : World × Store × Bool :=
  let ws := saveWrites w
  let db1 : Store :=
    { chunks := ws.foldl (fun c kv => if ok kv.1 then mapSet c kv.1 kv.2 else c) db.chunks
      meta := some ⟨pos.1, pos.2.1, pos.2.2, inventory, w.seed⟩ }
  let known' := ws.foldl (fun s kv => setAdd s kv.1) w.knownChunkKeys
  let success := ws.all fun kv => ok kv.1
  ({ w with
      knownChunkKeys := known'
      dirtyChunks := if success then [] else w.dirtyChunks },
    db1, success)

/-- `World.loadWorld()`: index every durable chunk key into the known set
and, when a meta record exists, restore the seed and rebuild the noise
generator from it. -/
def loadWorld (cn2d : (Nat → ℚ) → ℚ → ℚ → ℚ) (w : World) (db : Store) :
    World × Option Meta :=
  let known' := db.chunks.foldl (fun s kv => setAdd s kv.1) w.knownChunkKeys
  match db.meta with
  | some m =>
    ({ w with
        knownChunkKeys := known'
        seed := m.seed
        noise2D := cn2d (mulberryStream m.seed) }, some m)
  | none => ({ w with knownChunkKeys := known' }, none)

/-- `World.deleteWorld()`: wipe the durable store and every in-memory
collection, and re-roll a fresh seed. -/
def deleteWorld (cn2d : (Nat → ℚ) → ℚ → ℚ → ℚ) (newSeed : Nat) (w : World)
    (_db : Store) : World × Store :=
  ({ w with
      chunks := []
      chunksData := []
      dirtyChunks := []
      knownChunkKeys := []
      loadingChunks := []
      seed := newSeed
      noise2D := cn2d (mulberryStream newSeed) },
    ⟨[], none⟩)

/-- Squared planar chunk distance used by the eviction ranking. -/
def distSq (c : Key) (k : Key) : Int := (k.1 - c.1) ^ 2 + (k.2 - c.2) ^ 2

/-- Eviction of one ranked cache entry: persist it if dirty (clearing the
dirty flag and recording the key as known when the write resolves), then
drop the RAM volume and, if present, the mesh handle. -/
def evictStep (acc : World × Store) (kv : Key × Vol) : World × Store :=
  let w := acc.1
  let db := acc.2
  let w1 :=
    if kv.1 ∈ w.dirtyChunks then
      { w with
        dirtyChunks := setDel w.dirtyChunks kv.1
        knownChunkKeys := setAdd w.knownChunkKeys kv.1 }
    else w
  let db1 : Store :=
    if kv.1 ∈ w.dirtyChunks then { db with chunks := mapSet db.chunks kv.1 kv.2 } else db
  ({ w1 with
      chunksData := mapErase w1.chunksData kv.1
      chunks := mapErase w1.chunks kv.1 },
    db1)

/-- The descending-distance ranking of the cache entries around the
viewer's chunk `(cx, cz)` (a stable sort, as `Array.prototype.sort` is). -/
def rankedEntries (cx cz : Int) (w : World) : List (Key × Vol) :=
  w.chunksData.mergeSort fun a b => decide (distSq (cx, cz) b.1 ≤ distSq (cx, cz) a.1)

/-- `World.checkMemory(playerPos)`: a no-op at 500 or fewer cached chunk
volumes; otherwise evict the 50 entries most distant from the viewer's
chunk coordinate. -/
def checkMemory (px pz : ℚ) (w : World) (db : Store) : World × Store :=
  if w.chunksData.length ≤ 500 then (w, db)
  else
    let cx : Int := ⌊px / 16⌋
    let cz : Int := ⌊pz / 16⌋
    ((rankedEntries cx cz w).take 50).foldl evictStep (w, db)

/-- The claims' cache/dirty invariant: every dirty key has a cached
volume. -/
def DirtyInv (w : World) : Prop :=
  ∀ k ∈ w.dirtyChunks, (mapLookup w.chunksData k).isSome

/-- Well-formedness of an association list used as a JS `Map`: keys are
pairwise distinct. -/
def MapWF {α : Type} (m : List (Key × α)) : Prop := (m.map Prod.fst).Nodup

/-!  ## Association map and set lemmas -/

theorem mapLookup_set_self {α : Type} (m : List (Key × α)) (k : Key) (v : α) :
    mapLookup (mapSet m k v) k = some v := by
  induction m with
  | nil => simp [mapSet, mapLookup]
  | cons kv rest ih =>
    obtain ⟨k', v'⟩ := kv
    by_cases h : k' = k
    · simp [mapSet, h, mapLookup]
    · simp [mapSet, h, mapLookup, ih]

theorem mapLookup_set_ne {α : Type} (m : List (Key × α)) (k k' : Key) (v : α)
    (h : k' ≠ k) : mapLookup (mapSet m k v) k' = mapLookup m k' := by
  induction m with
  | nil => simp [mapSet, mapLookup, Ne.symm h]
  | cons kv rest ih =>
    obtain ⟨k₀, v₀⟩ := kv
    by_cases h0 : k₀ = k
    · subst h0
      simp [mapSet, mapLookup, Ne.symm h]
    · simp [mapSet, h0, mapLookup, ih]

theorem mapLookup_erase_ne {α : Type} (m : List (Key × α)) (k k' : Key)
    (h : k' ≠ k) : mapLookup (mapErase m k) k' = mapLookup m k' := by
  induction m with
  | nil => simp [mapErase, mapLookup]
  | cons kv rest ih =>
    obtain ⟨k₀, v₀⟩ := kv
    by_cases h0 : k₀ = k
    · subst h0
      simp [mapErase, mapLookup, Ne.symm h]
    · simp [mapErase, h0, mapLookup, ih]

theorem mapLookup_eq_none_of_not_mem {α : Type} (m : List (Key × α)) (k : Key)
    (h : k ∉ m.map Prod.fst) : mapLookup m k = none := by
  induction m with
  | nil => simp [mapLookup]
  | cons kv rest ih =>
    simp only [List.map_cons, List.mem_cons] at h
    push_neg at h
    simp [mapLookup, Ne.symm h.1, ih h.2]

theorem mapErase_map_fst_sublist {α : Type} (m : List (Key × α)) (k : Key) :
    ((mapErase m k).map Prod.fst).Sublist (m.map Prod.fst) := by
  induction m with
  | nil => simp [mapErase]
  | cons kv rest ih =>
    obtain ⟨k₀, v₀⟩ := kv
    by_cases h0 : k₀ = k
    · simp only [mapErase, h0, if_pos rfl, List.map_cons]
      exact (List.sublist_cons_self _ _)
    · simpa [mapErase, h0] using ih.cons₂ k₀

theorem mapErase_wf {α : Type} (m : List (Key × α)) (k : Key) (h : MapWF m) :
    MapWF (mapErase m k) := (mapErase_map_fst_sublist m k).nodup h

theorem mapLookup_erase_self {α : Type} (m : List (Key × α)) (k : Key)
    (h : MapWF m) : mapLookup (mapErase m k) k = none := by
  induction m with
  | nil => simp [mapErase, mapLookup]
  | cons kv rest ih =>
    obtain ⟨k₀, v₀⟩ := kv
    simp only [MapWF, List.map_cons, List.nodup_cons] at h
    by_cases h0 : k₀ = k
    · subst h0
      simpa [mapErase] using mapLookup_eq_none_of_not_mem rest k₀ h.1
    · simp [mapErase, h0, mapLookup, ih h.2]

theorem mem_mapSet_map_fst {α : Type} (m : List (Key × α)) (k k' : Key) (v : α) :
    k' ∈ (mapSet m k v).map Prod.fst ↔ k' ∈ m.map Prod.fst ∨ k' = k := by
  induction m with
  | nil => simp [mapSet]
  | cons kv rest ih =>
    obtain ⟨k₀, v₀⟩ := kv
    by_cases h0 : k₀ = k
    · subst h0
      constructor
      · intro hm
        rcases (by simpa [mapSet] using hm : k' = k₀ ∨ k' ∈ rest.map Prod.fst) with h | h
        · exact Or.inr h
        · exact Or.inl (by simp [h])
      · rintro (hm | hm)
        · rcases (by simpa using hm : k' = k₀ ∨ k' ∈ rest.map Prod.fst) with h | h
          · simp [mapSet, h]
          · simp [mapSet, h]
        · simp [mapSet, hm]
    · simp only [mapSet, if_neg h0, List.map_cons, List.mem_cons, ih]
      tauto

theorem mapSet_wf {α : Type} (m : List (Key × α)) (k : Key) (v : α) (h : MapWF m) :
    MapWF (mapSet m k v) := by
  induction m with
  | nil => simp [MapWF, mapSet]
  | cons kv rest ih =>
    obtain ⟨k₀, v₀⟩ := kv
    simp only [MapWF, List.map_cons, List.nodup_cons] at h
    by_cases h0 : k₀ = k
    · subst h0
      simpa [MapWF, mapSet] using h
    · simp only [MapWF, mapSet, if_neg h0, List.map_cons, List.nodup_cons]
      refine ⟨fun hc => ?_, ih h.2⟩
      rcases (mem_mapSet_map_fst rest k k₀ v).mp hc with h' | h'
      · exact h.1 h'
      · exact h0 h'

theorem mem_setAdd (s : List Key) (k k' : Key) :
    k' ∈ setAdd s k ↔ k' ∈ s ∨ k' = k := by
  by_cases h : k ∈ s
  · simp only [setAdd, if_pos h]
    constructor
    · exact Or.inl
    · rintro (h' | rfl)
      · exact h'
      · exact h
  · simp [setAdd, if_neg h]

theorem setAdd_nodup (s : List Key) (k : Key) (h : s.Nodup) : (setAdd s k).Nodup := by
  by_cases hm : k ∈ s
  · simpa [setAdd, hm]
  · simp only [setAdd, if_neg hm]
    refine List.Nodup.append h (List.nodup_singleton k) ?_
    intro a ha hb
    rw [List.mem_singleton] at hb
    subst hb
    exact hm ha

theorem mem_setDel_of_ne (s : List Key) (k k' : Key) (h : k' ≠ k) :
    k' ∈ setDel s k ↔ k' ∈ s := by
  induction s with
  | nil => simp [setDel]
  | cons k₀ rest ih =>
    by_cases h0 : k₀ = k
    · subst h0
      simp [setDel, h]
    · simp [setDel, h0, ih]

theorem not_mem_setDel (s : List Key) (k : Key) (h : s.Nodup) : k ∉ setDel s k := by
  induction s with
  | nil => simp [setDel]
  | cons k₀ rest ih =>
    simp only [List.nodup_cons] at h
    by_cases h0 : k₀ = k
    · subst h0
      simpa [setDel] using h.1
    · simp only [setDel, if_neg h0, List.mem_cons]
      rintro (rfl | hm)
      · exact h0 rfl
      · exact ih h.2 hm

theorem setDel_nodup (s : List Key) (k : Key) (h : s.Nodup) : (setDel s k).Nodup := by
  induction s with
  | nil => simp [setDel]
  | cons k₀ rest ih =>
    simp only [List.nodup_cons] at h
    by_cases h0 : k₀ = k
    · simpa [setDel, h0] using h.2
    · simp only [setDel, if_neg h0]
      refine List.nodup_cons.mpr ⟨fun hc => ?_, ih h.2⟩
      exact h.1 ((mem_setDel_of_ne rest k k₀ h0).mp hc)

theorem mem_foldl_setAdd (l : List (Key × Vol)) (s : List Key) (k : Key) :
    k ∈ l.foldl (fun s kv => setAdd s kv.1) s ↔ k ∈ s ∨ k ∈ l.map Prod.fst := by
  induction l generalizing s with
  | nil => simp
  | cons kv rest ih =>
    simp only [List.foldl_cons, ih, mem_setAdd, List.map_cons, List.mem_cons]
    tauto

/-!  ## Volume lemmas -/

theorem volWrite_self (d : Vol) (i v : Nat) : volWrite d i v i = v % 256 := by
  simp [volWrite]

theorem volWrite_ne (d : Vol) (i v j : Nat) (h : j ≠ i) : volWrite d i v j = d j := by
  simp [volWrite, h]

theorem blockIndex_lt (x y z : Nat) (hx : x < 16) (hy : y < 16) (hz : z < 16) :
    blockIndex x y z < 4096 := by
  simp only [blockIndex, chunkSize]
  omega

theorem blockIndex_inj {x y z x' y' z' : Nat} (hx : x < 16) (hy : y < 16)
    (hz : z < 16) (hx' : x' < 16) (hy' : y' < 16) (hz' : z' < 16)
    (h : blockIndex x y z = blockIndex x' y' z') : x = x' ∧ y = y' ∧ z = z' := by
  simp only [blockIndex, chunkSize] at h
  omega

/-!  ## World-coordinate resolution lemmas -/

theorem fdiv_sixteen (c r : Int) (h0 : 0 ≤ r) (h1 : r < 16) :
    (16 * c + r).fdiv 16 = c := by
  rw [Int.fdiv_eq_ediv _ (by norm_num)]
  omega

theorem chunkKey_resolve (cx cz lx lz : Int) (hx0 : 0 ≤ lx) (hx1 : lx < 16)
    (hz0 : 0 ≤ lz) (hz1 : lz < 16) :
    chunkKey (16 * cx + lx) (16 * cz + lz) = (cx, cz) := by
  simp [chunkKey, fdiv_sixteen _ _ hx0 hx1, fdiv_sixteen _ _ hz0 hz1]

theorem localIndex_resolve (cx cz lx lz : Int) (y : Int) (hx0 : 0 ≤ lx)
    (hx1 : lx < 16) (hz0 : 0 ≤ lz) (hz1 : lz < 16) (hy0 : 0 ≤ y) (hy1 : y < 16) :
    localIndex (16 * cx + lx) y (16 * cz + lz) = blockIndex lx.toNat y.toNat lz.toNat := by
  simp only [localIndex, fdiv_sixteen _ _ hx0 hx1, fdiv_sixteen _ _ hz0 hz1,
    blockIndex, chunkSize]
  omega

/-!  ## C3: getBlock / hasBlock bounds safety -/

/-- C3.  `getBlock` and `hasBlock` are pure lookups (they are functions of
the world state in this embedding, mirroring the read-only source): for
any `y < 0` or `y ≥ 16`, or any coordinate whose chunk volume is not in
the RAM cache, `getBlock` returns the empty type and `hasBlock` returns
`false`. -/
theorem getBlock_hasBlock_bounds (w : World) (x y z : Int)
    (h : y < 0 ∨ 16 ≤ y ∨ mapLookup w.chunksData (chunkKey x z) = none) :
    getBlock w x y z = AIR ∧ hasBlock w x y z = false := by
  unfold getBlock hasBlock
  rcases h with h | h | h
  · cases hm : mapLookup w.chunksData (chunkKey x z) <;> simp [AIR, h]
  · cases hm : mapLookup w.chunksData (chunkKey x z) <;> simp [AIR, h]
  · simp [h, AIR]

/-- Witness for C3 at a concrete world and coordinate. -/
theorem getBlock_hasBlock_bounds_witness :
    getBlock (World.init (fun _ _ _ => 0) 0 (fun _ => 0)) 3 20 5 = AIR ∧
      hasBlock (World.init (fun _ _ _ => 0) 0 (fun _ => 0)) 3 20 5 = false :=
  getBlock_hasBlock_bounds _ 3 20 5 (by norm_num)

theorem setBlock_eq (w : World) (x y z : Int) (t : Nat) (data : Vol)
    (hm : mapLookup w.chunksData (chunkKey x z) = some data)
    (hy0 : 0 ≤ y) (hy1 : y < 16) :
    setBlock w x y z t =
      { w with
        chunksData := mapSet w.chunksData (chunkKey x z)
          (volWrite data (localIndex x y z) t)
        dirtyChunks := setAdd w.dirtyChunks (chunkKey x z)
        chunks := mapSet w.chunks (chunkKey x z)
          (generateChunkMesh (volWrite data (localIndex x y z) t)
            (chunkKey x z).1 (chunkKey x z).2) } := by
  have hnot : ¬ (y < 0 ∨ 16 ≤ y) := by omega
  simp only [setBlock, hm, if_neg hnot]

/-!  ## C4: setBlock functional behaviour -/

/-- C4.  `setBlock(x, y, z, t)` is a no-op (the whole state unchanged) when
the target chunk's volume is not cached or `y` is outside `[0, 16)`;
otherwise it writes `t` at the resolved local index of the cached volume
(leaving that volume's other cells unchanged), adds the chunk key to the
dirty set, synchronously replaces the chunk's mesh by a rebuild from the
updated volume, and leaves every other chunk's volume and mesh, and the
rest of the state, unchanged. -/
theorem setBlock_spec (w : World) (x y z : Int) (t : Nat) :
    (mapLookup w.chunksData (chunkKey x z) = none ∨ y < 0 ∨ 16 ≤ y →
      setBlock w x y z t = w) ∧
    (∀ data, mapLookup w.chunksData (chunkKey x z) = some data →
      0 ≤ y → y < 16 → t < 256 →
      (setBlock w x y z t).chunksData =
          mapSet w.chunksData (chunkKey x z)
            (volWrite data (localIndex x y z) t) ∧
        volWrite data (localIndex x y z) t (localIndex x y z) = t ∧
        (∀ j, j ≠ localIndex x y z → volWrite data (localIndex x y z) t j = data j) ∧
        (setBlock w x y z t).dirtyChunks = setAdd w.dirtyChunks (chunkKey x z) ∧
        chunkKey x z ∈ (setBlock w x y z t).dirtyChunks ∧
        (setBlock w x y z t).chunks =
          mapSet w.chunks (chunkKey x z)
            (generateChunkMesh (volWrite data (localIndex x y z) t)
              (chunkKey x z).1 (chunkKey x z).2) ∧
        (∀ k', k' ≠ chunkKey x z →
          mapLookup (setBlock w x y z t).chunksData k' = mapLookup w.chunksData k' ∧
            mapLookup (setBlock w x y z t).chunks k' = mapLookup w.chunks k') ∧
        (setBlock w x y z t).knownChunkKeys = w.knownChunkKeys ∧
        (setBlock w x y z t).loadingChunks = w.loadingChunks) := by
  constructor
  · intro h
    unfold setBlock
    rcases h with h | h | h
    · simp [h]
    · cases hm : mapLookup w.chunksData (chunkKey x z) <;> simp [hm, h]
    · cases hm : mapLookup w.chunksData (chunkKey x z) <;> simp [hm, h]
  · intro data hm hy0 hy1 ht
    rw [setBlock_eq w x y z t data hm hy0 hy1]
    refine ⟨rfl, ?_, ?_, rfl, ?_, rfl, ?_, rfl, rfl⟩
    · rw [volWrite_self, Nat.mod_eq_of_lt ht]
    · intro j hj
      exact volWrite_ne _ _ _ _ hj
    · rw [mem_setAdd]
      exact Or.inr rfl
    · intro k' hk'
      exact ⟨mapLookup_set_ne _ _ _ _ hk', mapLookup_set_ne _ _ _ _ hk'⟩

/-- Witness for C4: a world caching chunk `(0, 0)`, both the no-op branch
(`y` out of range) and the successful write at `(1, 2, 3)`. -/
theorem setBlock_spec_witness :
    (mapLookup ({ World.init (fun _ _ _ => 0) 0 (fun _ => 0) with
        chunksData := [((0, 0), vol0)] } : World).chunksData (chunkKey 1 3) =
        some vol0 ∧
      setBlock { World.init (fun _ _ _ => 0) 0 (fun _ => 0) with
        chunksData := [((0, 0), vol0)] } 1 20 3 7 =
        { World.init (fun _ _ _ => 0) 0 (fun _ => 0) with
          chunksData := [((0, 0), vol0)] }) ∧
      (setBlock { World.init (fun _ _ _ => 0) 0 (fun _ => 0) with
        chunksData := [((0, 0), vol0)] } 1 2 3 7).dirtyChunks = [(0, 0)] := by
  have hkey : chunkKey 1 3 = ((0 : Int), (0 : Int)) := by decide
  have hm : mapLookup ({ World.init (fun _ _ _ => 0) 0 (fun _ => 0) with
      chunksData := [((0, 0), vol0)] } : World).chunksData (chunkKey 1 3) = some vol0 := by
    rw [hkey]
    rfl
  refine ⟨⟨hm, (setBlock_spec _ 1 20 3 7).1 (Or.inr (Or.inr (by norm_num)))⟩, ?_⟩
  have h := (setBlock_spec { World.init (fun _ _ _ => 0) 0 (fun _ => 0) with
      chunksData := [((0, 0), vol0)] } 1 2 3 7).2 vol0 hm (by norm_num) (by norm_num)
      (by norm_num)
  rw [h.2.2.2.1, hkey]
  rfl

/-!  ## Mesher lemmas -/

theorem sidesList_mem (s : Side) : s ∈ sidesList := by
  cases s <;> simp [sidesList]

theorem mem_allCoords (c : Nat × Nat × Nat) :
    c ∈ allCoords ↔ c.1 < 16 ∧ c.2.1 < 16 ∧ c.2.2 < 16 := by
  obtain ⟨x, y, z⟩ := c
  constructor
  · intro hc
    simp only [allCoords, chunkSize, List.mem_flatMap, List.mem_map, List.mem_range] at hc
    obtain ⟨a, ha, b, hb, d, hd, he⟩ := hc
    obtain ⟨rfl, rfl, rfl⟩ := Prod.mk.injEq .. ▸ (by
      have := he
      simp only [Prod.mk.injEq] at this
      exact ⟨this.1, this.2.1, this.2.2⟩ : a = x ∧ b = y ∧ d = z)
    exact ⟨ha, hb, hd⟩
  · rintro ⟨hx, hy, hz⟩
    simp only [allCoords, chunkSize, List.mem_flatMap, List.mem_map, List.mem_range]
    exact ⟨x, hx, y, hy, z, hz, rfl⟩

theorem allCoords_nodup : allCoords.Nodup := by
  have hinner : ∀ x : Nat,
      ((List.range chunkSize).flatMap fun y =>
        (List.range chunkSize).map fun z => (x, y, z)).Nodup := by
    intro x
    rw [List.nodup_flatMap]
    constructor
    · intro y _
      refine List.Nodup.map ?_ (List.nodup_range chunkSize)
      intro a b hab
      simpa using hab
    · refine (List.sorted_lt_range chunkSize).imp ?_
      intro a b hab
      intro c hca hcb
      simp only [List.mem_map] at hca hcb
      obtain ⟨z1, _, hz1⟩ := hca
      obtain ⟨z2, _, hz2⟩ := hcb
      rw [← hz1] at hz2
      simp only [Prod.mk.injEq] at hz2
      omega
  rw [allCoords, List.nodup_flatMap]
  refine ⟨fun x _ => hinner x, ?_⟩
  refine (List.sorted_lt_range chunkSize).imp ?_
  intro a b hab
  intro c hca hcb
  simp only [List.mem_flatMap, List.mem_map] at hca hcb
  obtain ⟨y1, _, z1, _, hz1⟩ := hca
  obtain ⟨y2, _, z2, _, hz2⟩ := hcb
  rw [← hz1] at hz2
  simp only [Prod.mk.injEq] at hz2
  omega

theorem sum_map_single (l : List (Nat × Nat × Nat)) (g : Nat × Nat × Nat → Nat)
    (p : Nat × Nat × Nat) (hnd : l.Nodup) (hp : p ∈ l)
    (h0 : ∀ q ∈ l, q ≠ p → g q = 0) : (l.map g).sum = g p := by
  induction l with
  | nil => cases hp
  | cons a tl ih =>
    simp only [List.nodup_cons] at hnd
    rcases List.mem_cons.mp hp with rfl | hp'
    · have hz : (tl.map g).sum = 0 := by
        refine List.sum_eq_zero ?_
        intro v hv
        obtain ⟨q, hq, rfl⟩ := List.mem_map.mp hv
        exact h0 q (List.mem_cons_of_mem _ hq) (fun he => hnd.1 (he ▸ hq))
      simp [hz]
    · have ha : g a = 0 :=
        h0 a (List.mem_cons_self a tl) (fun he => hnd.1 (he ▸ hp'))
      simp only [List.map_cons, List.sum_cons, ha, Nat.zero_add]
      exact ih hnd.2 hp' (fun q hq hqp => h0 q (List.mem_cons_of_mem _ hq) hqp)

theorem sum_map_pair (l : List (Nat × Nat × Nat)) (g : Nat × Nat × Nat → Nat)
    (p q : Nat × Nat × Nat) (hpq : p ≠ q) (hnd : l.Nodup) (hp : p ∈ l) (hq : q ∈ l)
    (h0 : ∀ r ∈ l, r ≠ p → r ≠ q → g r = 0) : (l.map g).sum = g p + g q := by
  induction l with
  | nil => cases hp
  | cons a tl ih =>
    simp only [List.nodup_cons] at hnd
    rcases List.mem_cons.mp hp with rfl | hp'
    · have hq' : q ∈ tl := by
        rcases List.mem_cons.mp hq with h | h
        · exact absurd h.symm hpq
        · exact h
      have htl : (tl.map g).sum = g q := by
        refine sum_map_single tl g q hnd.2 hq' ?_
        intro r hr hrq
        exact h0 r (List.mem_cons_of_mem _ hr) (fun he => hnd.1 (he ▸ hr)) hrq
      simp [htl]
    · rcases List.mem_cons.mp hq with rfl | hq'
      · have htl : (tl.map g).sum = g p := by
          refine sum_map_single tl g p hnd.2 hp' ?_
          intro r hr hrp
          exact h0 r (List.mem_cons_of_mem _ hr) hrp (fun he => hnd.1 (he ▸ hr))
        simp [htl]
        omega
      · have ha : g a = 0 := h0 a (List.mem_cons_self a tl)
          (fun he => hnd.1 (he ▸ hp')) (fun he => hnd.1 (he ▸ hq'))
        simp only [List.map_cons, List.sum_cons, ha, Nat.zero_add]
        exact ih hnd.2 hp' hq'
          (fun r hr hrp hrq => h0 r (List.mem_cons_of_mem _ hr) hrp hrq)

theorem inBounds_nbr_toNat (x y z : Nat) (s : Side) (hx : x < 16) (hy : y < 16)
    (hz : z < 16) (h : inBounds (nbrPos x y z s)) :
    (nbrPos x y z s).1.toNat < 16 ∧ (nbrPos x y z s).2.1.toNat < 16 ∧
      (nbrPos x y z s).2.2.toNat < 16 ∧
      idxI (nbrPos x y z s) =
        blockIndex (nbrPos x y z s).1.toNat (nbrPos x y z s).2.1.toNat
          (nbrPos x y z s).2.2.toNat ∧
      ((nbrPos x y z s).1.toNat, (nbrPos x y z s).2.1.toNat,
        (nbrPos x y z s).2.2.toNat) ≠ (x, y, z) := by
  cases s <;>
    (simp only [nbrPos, sideOffset, inBounds, idxI, blockIndex, chunkSize,
      Prod.mk.injEq, ne_eq, not_and] at h ⊢) <;> omega

theorem inBounds_toNat_cast (p : Int × Int × Int) (h : inBounds p) :
    (((p.1.toNat : Int)), ((p.2.1.toNat : Int)), ((p.2.2.toNat : Int))) = p := by
  obtain ⟨a, b, c⟩ := p
  simp only [inBounds] at h
  simp only [Prod.mk.injEq]
  omega

theorem idxI_cast (x y z : Nat) :
    idxI ((x : Int), (y : Int), (z : Int)) = blockIndex x y z := by
  simp only [idxI, blockIndex, chunkSize]
  omega

theorem inBounds_cast (x y z : Nat) (hx : x < 16) (hy : y < 16) (hz : z < 16) :
    inBounds ((x : Int), (y : Int), (z : Int)) := by
  simp only [inBounds]
  omega

theorem nbrPos_ne_of_side_ne (x y z : Nat) (s s' : Side) (hne : s ≠ s') :
    nbrPos x y z s ≠ nbrPos x y z s' := by
  cases s <;> cases s' <;>
    first
      | exact absurd rfl hne
      | (simp only [nbrPos, sideOffset, Prod.mk.injEq, ne_eq, not_and]; omega)

theorem nbr_opposite (x y z : Nat) (s : Side) (h : inBounds (nbrPos x y z s)) :
    nbrPos (nbrPos x y z s).1.toNat (nbrPos x y z s).2.1.toNat
        (nbrPos x y z s).2.2.toNat (oppositeSide s) =
      ((x : Int), (y : Int), (z : Int)) := by
  cases s <;>
    (simp only [nbrPos, sideOffset, oppositeSide, inBounds, Prod.mk.injEq] at h ⊢) <;>
    omega

theorem mem_voxelFaces (data : Vol) (x y z : Nat) (f : Face) :
    f ∈ voxelFaces data x y z ↔
      data (blockIndex x y z) ≠ AIR ∧ f.fx = x ∧ f.fy = y ∧ f.fz = z ∧
        f.ftype = data (blockIndex x y z) ∧
        checkNeighbor data (nbrPos x y z f.side) := by
  by_cases ht : data (blockIndex x y z) = AIR
  · simp [voxelFaces, ht]
  · simp only [voxelFaces, if_neg ht, List.mem_map, List.mem_filter]
    constructor
    · rintro ⟨s, ⟨_, hcheck⟩, rfl⟩
      exact ⟨ht, rfl, rfl, rfl, rfl, of_decide_eq_true hcheck⟩
    · rintro ⟨_, hfx, hfy, hfz, hft, hcheck⟩
      obtain ⟨fx, fy, fz, ft, fs⟩ := f
      simp only at hfx hfy hfz hft hcheck
      subst hfx
      subst hfy
      subst hfz
      subst hft
      exact ⟨fs, ⟨sidesList_mem fs, decide_eq_true hcheck⟩, rfl⟩

theorem meshFaces_length (data : Vol) :
    (meshFaces data).length =
      (allCoords.map fun c => (voxelFaces data c.1 c.2.1 c.2.2).length).sum := by
  rw [meshFaces, List.length_flatMap]
  rfl

theorem voxelFaces_length_air (data : Vol) (x y z : Nat)
    (h : data (blockIndex x y z) = AIR) : (voxelFaces data x y z).length = 0 := by
  simp [voxelFaces, h]

theorem voxelFaces_length_all (data : Vol) (x y z : Nat)
    (ht : data (blockIndex x y z) ≠ AIR)
    (hall : ∀ s, checkNeighbor data (nbrPos x y z s)) :
    (voxelFaces data x y z).length = 6 := by
  simp only [voxelFaces, if_neg ht, List.length_map]
  rw [List.filter_eq_self.mpr]
  · rfl
  · intro s _
    exact decide_eq_true (hall s)

theorem voxelFaces_length_one_false (data : Vol) (x y z : Nat) (s0 : Side)
    (ht : data (blockIndex x y z) ≠ AIR)
    (hs0 : ¬ checkNeighbor data (nbrPos x y z s0))
    (hother : ∀ s, s ≠ s0 → checkNeighbor data (nbrPos x y z s)) :
    (voxelFaces data x y z).length = 5 := by
  simp only [voxelFaces, if_neg ht, List.length_map, sidesList]
  cases s0 with
  | top =>
    simp [List.filter, decide_eq_false hs0,
      decide_eq_true (hother .bottom (by simp)),
      decide_eq_true (hother .front (by simp)),
      decide_eq_true (hother .back (by simp)),
      decide_eq_true (hother .right (by simp)),
      decide_eq_true (hother .left (by simp))]
  | bottom =>
    simp [List.filter, decide_eq_false hs0,
      decide_eq_true (hother .top (by simp)),
      decide_eq_true (hother .front (by simp)),
      decide_eq_true (hother .back (by simp)),
      decide_eq_true (hother .right (by simp)),
      decide_eq_true (hother .left (by simp))]
  | front =>
    simp [List.filter, decide_eq_false hs0,
      decide_eq_true (hother .top (by simp)),
      decide_eq_true (hother .bottom (by simp)),
      decide_eq_true (hother .back (by simp)),
      decide_eq_true (hother .right (by simp)),
      decide_eq_true (hother .left (by simp))]
  | back =>
    simp [List.filter, decide_eq_false hs0,
      decide_eq_true (hother .top (by simp)),
      decide_eq_true (hother .bottom (by simp)),
      decide_eq_true (hother .front (by simp)),
      decide_eq_true (hother .right (by simp)),
      decide_eq_true (hother .left (by simp))]
  | right =>
    simp [List.filter, decide_eq_false hs0,
      decide_eq_true (hother .top (by simp)),
      decide_eq_true (hother .bottom (by simp)),
      decide_eq_true (hother .front (by simp)),
      decide_eq_true (hother .back (by simp)),
      decide_eq_true (hother .left (by simp))]
  | left =>
    simp [List.filter, decide_eq_false hs0,
      decide_eq_true (hother .top (by simp)),
      decide_eq_true (hother .bottom (by simp)),
      decide_eq_true (hother .front (by simp)),
      decide_eq_true (hother .back (by simp)),
      decide_eq_true (hother .right (by simp))]

/-!  ## C6: face emission condition -/

/-- C6.  For every in-bounds voxel and every side, `generateChunkMesh`
emits a face for that voxel toward that side if and only if the voxel is
non-empty and the neighbor in that direction is out of the chunk's local
bounds, or holds the empty type, or holds the leaves type. -/
theorem face_emission_iff (data : Vol) (x y z : Nat) (hx : x < 16) (hy : y < 16)
    (hz : z < 16) (s : Side) :
    (∃ f ∈ meshFaces data, f.fx = x ∧ f.fy = y ∧ f.fz = z ∧ f.side = s) ↔
      data (blockIndex x y z) ≠ AIR ∧
        (¬ inBounds (nbrPos x y z s) ∨ data (idxI (nbrPos x y z s)) = AIR ∨
          data (idxI (nbrPos x y z s)) = LEAVES) := by
  constructor
  · rintro ⟨f, hf, hfx, hfy, hfz, hfs⟩
    rw [meshFaces, List.mem_flatMap] at hf
    obtain ⟨c, _, hfc⟩ := hf
    rw [mem_voxelFaces] at hfc
    obtain ⟨ht, h1, h2, h3, _, hcheck⟩ := hfc
    have hcx : c.1 = x := by rw [← h1, hfx]
    have hcy : c.2.1 = y := by rw [← h2, hfy]
    have hcz : c.2.2 = z := by rw [← h3, hfz]
    rw [hcx, hcy, hcz] at ht hcheck
    rw [hfs] at hcheck
    rcases hcheck with hb | htr
    · exact ⟨ht, Or.inl hb⟩
    · rcases htr with h | h
      · exact ⟨ht, Or.inr (Or.inl h)⟩
      · exact ⟨ht, Or.inr (Or.inr h)⟩
  · rintro ⟨ht, hnb⟩
    refine ⟨⟨x, y, z, data (blockIndex x y z), s⟩, ?_, rfl, rfl, rfl, rfl⟩
    rw [meshFaces, List.mem_flatMap]
    refine ⟨(x, y, z), (mem_allCoords _).mpr ⟨hx, hy, hz⟩, ?_⟩
    rw [mem_voxelFaces]
    refine ⟨ht, rfl, rfl, rfl, rfl, ?_⟩
    rcases hnb with h | h | h
    · exact Or.inl h
    · exact Or.inr (Or.inl h)
    · exact Or.inr (Or.inr h)

/-- Witness for C6: a single stone voxel at `(1, 2, 3)`, queried at its
top side. -/
theorem face_emission_iff_witness :
    (∃ f ∈ meshFaces (fun j => if j = blockIndex 1 2 3 then STONE else AIR),
        f.fx = 1 ∧ f.fy = 2 ∧ f.fz = 3 ∧ f.side = Side.top) ↔
      (fun j => if j = blockIndex 1 2 3 then STONE else AIR) (blockIndex 1 2 3) ≠ AIR ∧
        (¬ inBounds (nbrPos 1 2 3 Side.top) ∨
          (fun j => if j = blockIndex 1 2 3 then STONE else AIR)
              (idxI (nbrPos 1 2 3 Side.top)) = AIR ∨
          (fun j => if j = blockIndex 1 2 3 then STONE else AIR)
              (idxI (nbrPos 1 2 3 Side.top)) = LEAVES) :=
  face_emission_iff _ 1 2 3 (by norm_num) (by norm_num) (by norm_num) Side.top

/-!  ## C5 machinery: quad counts -/

theorem checkNeighbor_of_air (data : Vol) (p : Int × Int × Int)
    (h : ¬ inBounds p ∨ data (idxI p) = AIR) : checkNeighbor data p := by
  rcases h with h | h
  · exact Or.inl h
  · exact Or.inr (Or.inl h)

theorem voxelFaces_single_six (data : Vol) (x y z : Nat) (hx : x < 16) (hy : y < 16)
    (hz : z < 16) (ht : data (blockIndex x y z) ≠ AIR)
    (hrest : ∀ x' y' z', x' < 16 → y' < 16 → z' < 16 → (x', y', z') ≠ (x, y, z) →
      data (blockIndex x' y' z') = AIR) :
    (voxelFaces data x y z).length = 6 := by
  refine voxelFaces_length_all data x y z ht ?_
  intro s
  by_cases hb : inBounds (nbrPos x y z s)
  · obtain ⟨h1, h2, h3, hidx, hne⟩ := inBounds_nbr_toNat x y z s hx hy hz hb
    refine checkNeighbor_of_air data _ (Or.inr ?_)
    rw [hidx]
    exact hrest _ _ _ h1 h2 h3 hne
  · exact checkNeighbor_of_air data _ (Or.inl hb)

theorem voxelFaces_pair_five (data : Vol) (x y z : Nat) (s : Side)
    (hx : x < 16) (hy : y < 16) (hz : z < 16)
    (hnb : inBounds (nbrPos x y z s))
    (ht : data (blockIndex x y z) ≠ AIR)
    (hqt : data (idxI (nbrPos x y z s)) ≠ AIR)
    (hqtl : data (idxI (nbrPos x y z s)) ≠ LEAVES)
    (hrest : ∀ x' y' z', x' < 16 → y' < 16 → z' < 16 → (x', y', z') ≠ (x, y, z) →
      ((x' : Int), (y' : Int), (z' : Int)) ≠ nbrPos x y z s →
      data (blockIndex x' y' z') = AIR) :
    (voxelFaces data x y z).length = 5 := by
  refine voxelFaces_length_one_false data x y z s ht ?_ ?_
  · intro hc
    rcases hc with h | h
    · exact h hnb
    · rcases h with h | h
      · exact hqt h
      · exact hqtl h
  · intro s' hs'
    by_cases hb : inBounds (nbrPos x y z s')
    · obtain ⟨h1, h2, h3, hidx, hne⟩ := inBounds_nbr_toNat x y z s' hx hy hz hb
      refine checkNeighbor_of_air data _ (Or.inr ?_)
      rw [hidx]
      refine hrest _ _ _ h1 h2 h3 hne ?_
      rw [inBounds_toNat_cast _ hb]
      exact nbrPos_ne_of_side_ne x y z s' s (fun he => hs' he)
    · exact checkNeighbor_of_air data _ (Or.inl hb)

theorem faceVerts_length (f : Face) : (faceVerts f).length = 4 := by
  obtain ⟨fx, fy, fz, ft, fs⟩ := f
  cases fs <;> rfl

theorem meshPositions_length (data : Vol) :
    (meshPositions data).length = 4 * (meshFaces data).length := by
  rw [meshPositions, List.length_flatMap]
  have h : (meshFaces data).map (List.length ∘ faceVerts) =
      (meshFaces data).map fun _ => 4 :=
    List.map_congr_left fun a _ => faceVerts_length a
  rw [h, List.map_const', List.sum_replicate, smul_eq_mul, Nat.mul_comm]

theorem quadIndices_length (k : Nat) : ∀ i n, n = i + 4 * k →
    (quadIndices n i).length = 6 * k := by
  induction k with
  | zero =>
    intro i n hn
    unfold quadIndices
    rw [if_neg (by omega)]
    rfl
  | succ k ih =>
    intro i n hn
    unfold quadIndices
    rw [if_pos (by omega)]
    simp only [List.length_append, List.length_cons, List.length_nil,
      ih (i + 4) n (by omega)]
    omega

theorem quadIndices_24 : (quadIndices 24 0).length = 36 :=
  quadIndices_length 6 0 24 (by norm_num)

theorem meshFaces_single_count (data : Vol) (x y z : Nat) (hx : x < 16)
    (hy : y < 16) (hz : z < 16) (ht : data (blockIndex x y z) ≠ AIR)
    (hrest : ∀ x' y' z', x' < 16 → y' < 16 → z' < 16 → (x', y', z') ≠ (x, y, z) →
      data (blockIndex x' y' z') = AIR) :
    (meshFaces data).length = 6 := by
  rw [meshFaces_length]
  rw [sum_map_single allCoords _ (x, y, z) allCoords_nodup
    ((mem_allCoords _).mpr ⟨hx, hy, hz⟩) ?_]
  · exact voxelFaces_single_six data x y z hx hy hz ht hrest
  · intro q hq hqne
    obtain ⟨q1, q2, q3⟩ := q
    obtain ⟨hq1, hq2, hq3⟩ := (mem_allCoords _).mp hq
    exact voxelFaces_length_air data q1 q2 q3 (hrest q1 q2 q3 hq1 hq2 hq3 hqne)

theorem meshFaces_pair_count (data : Vol) (x y z : Nat) (s : Side) (hx : x < 16)
    (hy : y < 16) (hz : z < 16) (hnb : inBounds (nbrPos x y z s))
    (ht : data (blockIndex x y z) ≠ AIR) (htl : data (blockIndex x y z) ≠ LEAVES)
    (hsame : data (idxI (nbrPos x y z s)) = data (blockIndex x y z))
    (hrest : ∀ x' y' z', x' < 16 → y' < 16 → z' < 16 → (x', y', z') ≠ (x, y, z) →
      ((x' : Int), (y' : Int), (z' : Int)) ≠ nbrPos x y z s →
      data (blockIndex x' y' z') = AIR) :
    (meshFaces data).length = 10 := by
  obtain ⟨h1, h2, h3, hidx, hne⟩ := inBounds_nbr_toNat x y z s hx hy hz hnb
  have hqt : data (idxI (nbrPos x y z s)) ≠ AIR := by rw [hsame]; exact ht
  have hqtl : data (idxI (nbrPos x y z s)) ≠ LEAVES := by rw [hsame]; exact htl
  have hp5 : (voxelFaces data x y z).length = 5 :=
    voxelFaces_pair_five data x y z s hx hy hz hnb ht hqt hqtl hrest
  -- the neighbor voxel also contributes exactly 5 faces
  have hop := nbr_opposite x y z s hnb
  have hcast := inBounds_toNat_cast _ hnb
  have hq5 : (voxelFaces data (nbrPos x y z s).1.toNat (nbrPos x y z s).2.1.toNat
      (nbrPos x y z s).2.2.toNat).length = 5 := by
    refine voxelFaces_pair_five data _ _ _ (oppositeSide s) h1 h2 h3 ?_ ?_ ?_ ?_ ?_
    · rw [hop]
      exact inBounds_cast x y z hx hy hz
    · rw [← hidx, hsame]
      exact ht
    · rw [hop, idxI_cast]
      exact ht
    · rw [hop, idxI_cast]
      exact htl
    · intro x' y' z' hx' hy' hz' hne1 hne2
      rw [hop] at hne2
      have hnat : (x', y', z') ≠ (x, y, z) := by
        intro he
        exact hne2 (by
          simp only [Prod.mk.injEq] at he
          simp [he.1, he.2.1, he.2.2])
      have hnbr : ((x' : Int), (y' : Int), (z' : Int)) ≠ nbrPos x y z s := by
        intro he
        apply hne1
        have := congrArg (fun t : Int × Int × Int =>
          (t.1.toNat, t.2.1.toNat, t.2.2.toNat)) he
        simpa using this
      exact hrest x' y' z' hx' hy' hz' hnat hnbr
  rw [meshFaces_length]
  rw [sum_map_pair allCoords _ (x, y, z)
    ((nbrPos x y z s).1.toNat, (nbrPos x y z s).2.1.toNat, (nbrPos x y z s).2.2.toNat)
    (Ne.symm hne) allCoords_nodup ((mem_allCoords _).mpr ⟨hx, hy, hz⟩)
    ((mem_allCoords _).mpr ⟨h1, h2, h3⟩) ?_]
  · rw [hp5, hq5]
  · intro r hr hrp hrq
    obtain ⟨r1, r2, r3⟩ := r
    obtain ⟨hr1, hr2, hr3⟩ := (mem_allCoords _).mp hr
    refine voxelFaces_length_air data r1 r2 r3 (hrest r1 r2 r3 hr1 hr2 hr3 hrp ?_)
    intro he
    apply hrq
    have := congrArg (fun t : Int × Int × Int =>
      (t.1.toNat, t.2.1.toNat, t.2.2.toNat)) he
    simpa using this

/-!  ## C5: quad counts for isolated and adjacent voxels -/

/-- C5 counterexample.  Two adjacent leaves voxels at `(0,0,0)` and
`(1,0,0)`: the claim says the shared internal face between two adjacent
same-type voxels is never emitted and the pair yields `2 * 6 - 2 = 10`
quads, but leaves neighbors count as transparent, so the face of
`(0,0,0)` toward its leaves neighbor is emitted and the pair yields 12
quads. -/
theorem leaves_pair_shared_face_emitted :
    (⟨0, 0, 0, LEAVES, Side.right⟩ : Face) ∈
        meshFaces (fun j => if j = blockIndex 0 0 0 then LEAVES
          else if j = blockIndex 1 0 0 then LEAVES else AIR) ∧
      (meshFaces (fun j => if j = blockIndex 0 0 0 then LEAVES
          else if j = blockIndex 1 0 0 then LEAVES else AIR)).length = 12 ∧
      (12 : Nat) ≠ 2 * 6 - 2 := by
  set data : Vol := fun j => if j = blockIndex 0 0 0 then LEAVES
    else if j = blockIndex 1 0 0 then LEAVES else AIR with hdata
  have hz : ∀ r1 r2 r3 : Nat, r1 < 16 → r2 < 16 → r3 < 16 →
      (r1, r2, r3) ≠ ((0 : Nat), (0 : Nat), (0 : Nat)) →
      (r1, r2, r3) ≠ ((1 : Nat), (0 : Nat), (0 : Nat)) →
      data (blockIndex r1 r2 r3) = AIR := by
    intro r1 r2 r3 h1 h2 h3 hne0 hne1
    have k0 : blockIndex r1 r2 r3 ≠ blockIndex 0 0 0 := by
      intro he
      obtain ⟨e1, e2, e3⟩ := blockIndex_inj h1 h2 h3 (by norm_num) (by norm_num)
        (by norm_num) he
      exact hne0 (by simp [e1, e2, e3])
    have k1 : blockIndex r1 r2 r3 ≠ blockIndex 1 0 0 := by
      intro he
      obtain ⟨e1, e2, e3⟩ := blockIndex_inj h1 h2 h3 (by norm_num) (by norm_num)
        (by norm_num) he
      exact hne1 (by simp [e1, e2, e3])
    rw [hdata]
    simp only [if_neg k0, if_neg k1]
  refine ⟨?_, ?_, by norm_num⟩
  · rw [meshFaces, List.mem_flatMap]
    refine ⟨(0, 0, 0), (mem_allCoords _).mpr (by norm_num), ?_⟩
    rw [mem_voxelFaces]
    exact ⟨by decide, rfl, rfl, rfl, by decide, by decide⟩
  · rw [meshFaces_length]
    rw [sum_map_pair allCoords _ ((0 : Nat), (0 : Nat), (0 : Nat))
      ((1 : Nat), (0 : Nat), (0 : Nat)) (by decide) allCoords_nodup
      ((mem_allCoords _).mpr (by norm_num)) ((mem_allCoords _).mpr (by norm_num)) ?_]
    · have c0 : (voxelFaces data 0 0 0).length = 6 := by decide
      have c1 : (voxelFaces data 1 0 0).length = 6 := by decide
      rw [c0, c1]
    · intro r hr hr0 hr1
      obtain ⟨r1, r2, r3⟩ := r
      obtain ⟨h1, h2, h3⟩ := (mem_allCoords _).mp hr
      exact voxelFaces_length_air data r1 r2 r3 (hz r1 r2 r3 h1 h2 h3 hr0 hr1)

/-- C5 (amended).  For every volume whose single non-empty voxel is
isolated the mesher emits exactly 6 quads (24 vertices, 36 triangle
indices, i.e. 12 triangles); and for every pair of adjacent non-empty
voxels of the same *non-foliage* type the shared internal face is never
emitted, so the pair yields 10 quads — 2 fewer than two isolated voxels.
(For the foliage type the shared faces are emitted: see the
counterexample.) -/
theorem mesher_quad_counts :
    (∀ (data : Vol) (x y z : Nat), x < 16 → y < 16 → z < 16 →
      data (blockIndex x y z) ≠ AIR →
      (∀ x' y' z', x' < 16 → y' < 16 → z' < 16 → (x', y', z') ≠ (x, y, z) →
        data (blockIndex x' y' z') = AIR) →
      (meshFaces data).length = 6 ∧ (meshPositions data).length = 24 ∧
        (quadIndices (meshPositions data).length 0).length = 36) ∧
    (∀ (data : Vol) (x y z : Nat) (s : Side), x < 16 → y < 16 → z < 16 →
      inBounds (nbrPos x y z s) →
      data (blockIndex x y z) ≠ AIR → data (blockIndex x y z) ≠ LEAVES →
      data (idxI (nbrPos x y z s)) = data (blockIndex x y z) →
      (∀ x' y' z', x' < 16 → y' < 16 → z' < 16 → (x', y', z') ≠ (x, y, z) →
        ((x' : Int), (y' : Int), (z' : Int)) ≠ nbrPos x y z s →
        data (blockIndex x' y' z') = AIR) →
      (meshFaces data).length = 10) := by
  constructor
  · intro data x y z hx hy hz ht hrest
    have h6 := meshFaces_single_count data x y z hx hy hz ht hrest
    have h24 : (meshPositions data).length = 24 := by
      rw [meshPositions_length, h6]
    refine ⟨h6, h24, ?_⟩
    rw [h24]
    exact quadIndices_24
  · intro data x y z s hx hy hz hnb ht htl hsame hrest
    exact meshFaces_pair_count data x y z s hx hy hz hnb ht htl hsame hrest

/-- Witness for C5: a single stone voxel at `(1, 2, 3)` and a stone pair
at `(4, 0, 0)`–`(5, 0, 0)`. -/
theorem mesher_quad_counts_witness :
    ((meshFaces (fun j => if j = blockIndex 1 2 3 then STONE else AIR)).length = 6 ∧
      (meshPositions (fun j => if j = blockIndex 1 2 3 then STONE else AIR)).length = 24 ∧
      (quadIndices (meshPositions
        (fun j => if j = blockIndex 1 2 3 then STONE else AIR)).length 0).length = 36) ∧
    (meshFaces (fun j => if j = blockIndex 4 0 0 then STONE
      else if j = blockIndex 5 0 0 then STONE else AIR)).length = 10 := by
  constructor
  · refine mesher_quad_counts.1 _ 1 2 3 (by norm_num) (by norm_num) (by norm_num)
      (by decide) ?_
    intro x' y' z' hx' hy' hz' hne
    have k : blockIndex x' y' z' ≠ blockIndex 1 2 3 := by
      intro he
      obtain ⟨e1, e2, e3⟩ := blockIndex_inj hx' hy' hz' (by norm_num) (by norm_num)
        (by norm_num) he
      exact hne (by simp [e1, e2, e3])
    simp only [if_neg k]
  · refine mesher_quad_counts.2 _ 4 0 0 Side.right (by norm_num) (by norm_num)
      (by norm_num) (by decide) (by decide) (by decide) (by decide) ?_
    intro x' y' z' hx' hy' hz' hne4 hne5
    have k4 : blockIndex x' y' z' ≠ blockIndex 4 0 0 := by
      intro he
      obtain ⟨e1, e2, e3⟩ := blockIndex_inj hx' hy' hz' (by norm_num) (by norm_num)
        (by norm_num) he
      exact hne4 (by simp [e1, e2, e3])
    have k5 : blockIndex x' y' z' ≠ blockIndex 5 0 0 := by
      intro he
      obtain ⟨e1, e2, e3⟩ := blockIndex_inj hx' hy' hz' (by norm_num) (by norm_num)
        (by norm_num) he
      have : ((x' : Int), (y' : Int), (z' : Int)) = nbrPos 4 0 0 Side.right := by
        simp [nbrPos, sideOffset, e1, e2, e3]
      exact hne5 this
    simp only [if_neg k4, if_neg k5]

/-!  ## Terrain generation lemmas -/

theorem colType_lt (y h : Nat) : colType y h < 256 := by
  unfold colType BEDROCK GRASS DIRT STONE
  split_ifs <;> norm_num

theorem clamp_bounds (raw : Int) :
    1 ≤ (if raw < 1 then 1 else if 16 ≤ raw then 15 else raw).toNat ∧
      (if raw < 1 then 1 else if 16 ≤ raw then 15 else raw).toNat ≤ 15 := by
  split_ifs <;> omega

theorem heightAt_bounds (noise : ℚ → ℚ → ℚ) (cx cz : Int) (x z : Nat) :
    1 ≤ heightAt noise cx cz x z ∧ heightAt noise cx cz x z ≤ 15 :=
  clamp_bounds _

theorem fillAux_get_lt (x z h : Nat) (n : Nat) (d : Vol) (y : Nat) (hy : y < n) :
    fillAux x z h n d (blockIndex x y z) = colType y h := by
  induction n with
  | zero => omega
  | succ m ih =>
    rw [fillAux, List.range_succ, List.foldl_append, List.foldl_cons, List.foldl_nil]
    by_cases hym : y = m
    · subst hym
      rw [volWrite_self, Nat.mod_eq_of_lt (colType_lt _ _)]
    · have hne : blockIndex x y z ≠ blockIndex x m z := by
        simp only [blockIndex, chunkSize]
        omega
      rw [volWrite_ne _ _ _ _ hne]
      exact ih (by omega)

theorem fillAux_get_other (x z h n : Nat) (d : Vol) (j : Nat)
    (hj : ∀ y < n, j ≠ blockIndex x y z) : fillAux x z h n d j = d j := by
  induction n with
  | zero => rfl
  | succ m ih =>
    rw [fillAux, List.range_succ, List.foldl_append, List.foldl_cons, List.foldl_nil]
    rw [volWrite_ne _ _ _ _ (hj m (by omega))]
    exact ih fun y hy => hj y (by omega)

theorem fillColumn_get_le (x z h : Nat) (d : Vol) (y : Nat) (hy : y ≤ h) :
    fillColumn x z h d (blockIndex x y z) = colType y h :=
  fillAux_get_lt x z h (h + 1) d y (by omega)

theorem fillColumn_get_other (x z h : Nat) (d : Vol) (j : Nat)
    (hj : ∀ y ≤ h, j ≠ blockIndex x y z) : fillColumn x z h d j = d j :=
  fillAux_get_other x z h (h + 1) d j fun y hy => hj y (by omega)

theorem innerFold_untouched (noise : ℚ → ℚ → ℚ) (cx cz : Int) (x : Nat) (n : Nat)
    (d : Vol) (z y : Nat) (hz : n ≤ z) (hz16 : z < 16) (hy16 : y < 16) :
    (List.range n).foldl
        (fun d z => fillColumn x z (heightAt noise cx cz x z) d) d
        (blockIndex x y z) = d (blockIndex x y z) := by
  induction n with
  | zero => rfl
  | succ m ih =>
    rw [List.range_succ, List.foldl_append, List.foldl_cons, List.foldl_nil]
    rw [fillColumn_get_other]
    · exact ih (by omega)
    · intro y' hy'
      have h15 := (heightAt_bounds noise cx cz x m).2
      simp only [blockIndex, chunkSize]
      omega

theorem innerFold_get (noise : ℚ → ℚ → ℚ) (cx cz : Int) (x : Nat) (n : Nat)
    (d : Vol) (z y : Nat) (hz : z < n) (hn : n ≤ 16) (hy16 : y < 16) :
    (List.range n).foldl
        (fun d z => fillColumn x z (heightAt noise cx cz x z) d) d
        (blockIndex x y z) =
      if y ≤ heightAt noise cx cz x z then colType y (heightAt noise cx cz x z)
      else d (blockIndex x y z) := by
  induction n with
  | zero => omega
  | succ m ih =>
    rw [List.range_succ, List.foldl_append, List.foldl_cons, List.foldl_nil]
    by_cases hzm : z = m
    · rw [← hzm]
      by_cases hyh : y ≤ heightAt noise cx cz x z
      · rw [if_pos hyh]
        exact fillColumn_get_le x z _ _ y hyh
      · rw [if_neg hyh]
        rw [fillColumn_get_other]
        · exact innerFold_untouched noise cx cz x z d z y (le_refl z) (by omega) hy16
        · intro y' hy'
          have h15 := (heightAt_bounds noise cx cz x z).2
          simp only [blockIndex, chunkSize]
          omega
    · rw [fillColumn_get_other]
      · exact ih (by omega) (by omega)
      · intro y' hy'
        have h15 := (heightAt_bounds noise cx cz x m).2
        have hz16 : z < 16 := by omega
        simp only [blockIndex, chunkSize]
        omega

theorem innerFold_other (noise : ℚ → ℚ → ℚ) (cx cz : Int) (x' : Nat) (n : Nat)
    (d : Vol) (x y z : Nat) (hne : x' ≠ x) (hx : x < 16) (hx' : x' < 16)
    (hy16 : y < 16) (hz16 : z < 16) (hn : n ≤ 16) :
    (List.range n).foldl
        (fun d z => fillColumn x' z (heightAt noise cx cz x' z) d) d
        (blockIndex x y z) = d (blockIndex x y z) := by
  induction n with
  | zero => rfl
  | succ m ih =>
    rw [List.range_succ, List.foldl_append, List.foldl_cons, List.foldl_nil]
    rw [fillColumn_get_other]
    · exact ih (by omega)
    · intro y' hy'
      have h15 := (heightAt_bounds noise cx cz x' m).2
      simp only [blockIndex, chunkSize]
      omega

theorem outerFold_untouched (noise : ℚ → ℚ → ℚ) (cx cz : Int) (n : Nat) (d : Vol)
    (x y z : Nat) (hx : n ≤ x) (hx16 : x < 16) (hy16 : y < 16) (hz16 : z < 16) :
    (List.range n).foldl
        (fun d x =>
          (List.range chunkSize).foldl
            (fun d z => fillColumn x z (heightAt noise cx cz x z) d) d) d
        (blockIndex x y z) = d (blockIndex x y z) := by
  induction n with
  | zero => rfl
  | succ m ih =>
    rw [List.range_succ, List.foldl_append, List.foldl_cons, List.foldl_nil]
    rw [innerFold_other noise cx cz m chunkSize _ x y z (by omega) hx16 (by omega)
      hy16 hz16 (by norm_num [chunkSize])]
    exact ih (by omega)

theorem terrainPass_get (noise : ℚ → ℚ → ℚ) (cx cz : Int) (x y z : Nat)
    (hx : x < 16) (hy : y < 16) (hz : z < 16) :
    terrainPass noise cx cz (blockIndex x y z) =
      if y ≤ heightAt noise cx cz x z then colType y (heightAt noise cx cz x z)
      else AIR := by
  have hgen : ∀ n : Nat, x < n → n ≤ 16 →
      (List.range n).foldl
          (fun d x =>
            (List.range chunkSize).foldl
              (fun d z => fillColumn x z (heightAt noise cx cz x z) d) d)
          vol0 (blockIndex x y z) =
        if y ≤ heightAt noise cx cz x z then colType y (heightAt noise cx cz x z)
        else AIR := by
    intro n hn h16
    induction n with
    | zero => omega
    | succ m ih =>
      rw [List.range_succ, List.foldl_append, List.foldl_cons, List.foldl_nil]
      by_cases hxm : x = m
      · rw [← hxm]
        rw [innerFold_get noise cx cz x chunkSize _ z y
          (by simpa [chunkSize] using hz) (by norm_num [chunkSize]) hy]
        by_cases hyh : y ≤ heightAt noise cx cz x z
        · rw [if_pos hyh, if_pos hyh]
        · rw [if_neg hyh, if_neg hyh]
          rw [outerFold_untouched noise cx cz x vol0 x y z (le_refl x) hx hy hz]
          rfl
      · rw [innerFold_other noise cx cz m chunkSize _ x y z (Ne.symm hxm) hx
          (by omega) hy hz (by norm_num [chunkSize])]
        exact ih (by omega) (by omega)
  exact hgen 16 hx (by norm_num)

theorem treeStep_d (rand : Nat → ℚ) (st : GenSt) (x z : Nat)
    (hr : ∀ n, 1 / 100 ≤ rand n) : (treeStep rand st x z).d = st.d := by
  unfold treeStep
  dsimp only
  split_ifs with h1 h2 h3 h4
  · rfl
  · exact absurd h4 (not_lt.mpr (hr st.ix))
  · rfl
  · rfl
  · rfl

theorem foldl_d_preserve {α : Type} (f : GenSt → α → GenSt)
    (hf : ∀ st a, (f st a).d = st.d) (l : List α) (st : GenSt) :
    (l.foldl f st).d = st.d := by
  induction l generalizing st with
  | nil => rfl
  | cons a tl ih => rw [List.foldl_cons, ih, hf]

theorem treePass_d (rand : Nat → ℚ) (d : Vol) (ix : Nat)
    (hr : ∀ n, 1 / 100 ≤ rand n) : (treePass rand d ix).d = d := by
  unfold treePass
  rw [foldl_d_preserve]
  intro st x
  rw [foldl_d_preserve]
  intro st' z
  exact treeStep_d rand st' x z hr

theorem generateChunkData_no_trees (noise : ℚ → ℚ → ℚ) (rand : Nat → ℚ) (ix : Nat)
    (cx cz : Int) (hr : ∀ n, 1 / 100 ≤ rand n) :
    (generateChunkData noise rand ix cx cz).d = terrainPass noise cx cz :=
  treePass_d rand _ ix hr

theorem buildChunkMesh_chunksData (w : World) (cx cz : Int) (data : Vol) :
    (buildChunkMesh w cx cz data).chunksData = w.chunksData := by
  unfold buildChunkMesh
  dsimp only
  split_ifs <;> rfl

theorem generateChunk_chunksData (w : World) (cx cz : Int) :
    (generateChunk w cx cz).chunksData =
      mapSet w.chunksData (cx, cz)
        (generateChunkData w.noise2D w.rand w.randIx cx cz).d := by
  unfold generateChunk
  rw [buildChunkMesh_chunksData]

theorem getBlock_generateChunk (w : World) (cx cz : Int) (lx lz y : Int)
    (hlx0 : 0 ≤ lx) (hlx : lx < 16) (hlz0 : 0 ≤ lz) (hlz : lz < 16)
    (hy0 : 0 ≤ y) (hy1 : y < 16) :
    getBlock (generateChunk w cx cz) (16 * cx + lx) y (16 * cz + lz) =
      (generateChunkData w.noise2D w.rand w.randIx cx cz).d
        (blockIndex lx.toNat y.toNat lz.toNat) := by
  have hkey : chunkKey (16 * cx + lx) (16 * cz + lz) = (cx, cz) :=
    chunkKey_resolve cx cz lx lz hlx0 hlx hlz0 hlz
  have hlook : mapLookup (generateChunk w cx cz).chunksData
      (chunkKey (16 * cx + lx) (16 * cz + lz)) =
      some (generateChunkData w.noise2D w.rand w.randIx cx cz).d := by
    rw [hkey, generateChunk_chunksData, mapLookup_set_self]
  unfold getBlock
  rw [hlook]
  dsimp only
  rw [if_neg (by omega)]
  rw [localIndex_resolve cx cz lx lz y hlx0 hlx hlz0 hlz hy0 hy1]

theorem getBlock_out_of_range (w : World) (x y z : Int) (h : y < 0 ∨ 16 ≤ y) :
    getBlock w x y z = AIR := by
  unfold getBlock
  cases hm : mapLookup w.chunksData (chunkKey x z) <;> simp [hm, h, AIR]

/-!  ## C2: the height pass of generateChunk -/

/-- C2 counterexample.  The claim's sub-surface clause states that *every*
`y` with `height - 3 ≤ y < height` holds the dirt type.  With a noise
sample of `-1/4` the computed height is `⌊-1/4 * 8⌋ + 4 = 2`, so `y = 0`
satisfies `height - 3 ≤ 0 < height`, yet the height pass stores bedrock
there (the `y = 0` bedrock rule wins), not dirt. -/
theorem terrain_dirt_clause_counterexample :
    heightAt (fun _ _ => -(1 / 4)) 0 0 8 8 = 2 ∧
      ((2 : Int) - 3 ≤ 0 ∧ (0 : Int) < 2) ∧
      terrainPass (fun _ _ => -(1 / 4)) 0 0 (blockIndex 8 0 8) = BEDROCK ∧
      BEDROCK ≠ DIRT := by
  have hfl : (-(1 / 4 : ℚ)) * 8 = ((-2 : Int) : ℚ) := by norm_num
  have hh : heightAt (fun _ _ => -(1 / 4 : ℚ)) 0 0 8 8 = 2 := by
    simp only [heightAt, TERRAIN_SCALE, TERRAIN_HEIGHT, OFFSET]
    rw [hfl, Int.floor_intCast]
    decide
  refine ⟨hh, ⟨by norm_num, by norm_num⟩, ?_, by norm_num [BEDROCK, DIRT]⟩
  rw [terrainPass_get _ 0 0 8 0 8 (by norm_num) (by norm_num) (by norm_num), hh]
  rw [if_pos (by norm_num)]
  rfl

/-- C2 (amended).  (a) The height pass computes
`height = floor(noise * 8) + 4` clamped to `[1, 15]`.  (b) It fills each
column with bedrock at `y = 0`, the surface type at `y = height`, the
sub-surface type at every *remaining* `y` with `height - 3 ≤ y < height`,
the base rock type at the remaining `1 ≤ y ≤ height - 4`, and the empty
type above `height`.  (c) Immediately after a generation in which the
vegetation pass places no tree (every `Math.random` draw is at least
`0.01`), `getBlock` at local `(8, 0, 8)` returns bedrock, at the computed
surface height returns the surface type, and one block above the surface
returns the empty type. -/
theorem terrain_height_pass_spec :
    (∀ (noise : ℚ → ℚ → ℚ) (cx cz : Int) (x z : Nat),
      (heightAt noise cx cz x z : Int) =
        max 1 (min (⌊noise ((cx * 16 + (x : Int)) / 50) ((cz * 16 + (z : Int)) / 50)
          * 8⌋ + 4) 15)) ∧
    (∀ (noise : ℚ → ℚ → ℚ) (cx cz : Int) (x y z : Nat),
      x < 16 → y < 16 → z < 16 →
      terrainPass noise cx cz (blockIndex x y z) =
        if heightAt noise cx cz x z < y then AIR
        else if y = 0 then BEDROCK
        else if y = heightAt noise cx cz x z then GRASS
        else if heightAt noise cx cz x z ≤ y + 3 then DIRT
        else STONE) ∧
    (∀ (w : World) (cx cz : Int), (∀ n, 1 / 100 ≤ w.rand n) →
      getBlock (generateChunk w cx cz) (16 * cx + 8) 0 (16 * cz + 8) = BEDROCK ∧
      getBlock (generateChunk w cx cz) (16 * cx + 8)
        (heightAt w.noise2D cx cz 8 8 : Int) (16 * cz + 8) = GRASS ∧
      getBlock (generateChunk w cx cz) (16 * cx + 8)
        ((heightAt w.noise2D cx cz 8 8 : Int) + 1) (16 * cz + 8) = AIR) := by
  refine ⟨?_, ?_, ?_⟩
  · intro noise cx cz x z
    have h : ∀ raw : Int,
        (((if raw < 1 then 1 else if 16 ≤ raw then 15 else raw).toNat : Nat) : Int) =
          max 1 (min raw 15) := by
      intro raw
      split_ifs <;> omega
    simp only [heightAt, TERRAIN_SCALE, TERRAIN_HEIGHT, OFFSET]
    exact h _
  · intro noise cx cz x y z hx hy hz
    rw [terrainPass_get noise cx cz x y z hx hy hz]
    by_cases h1 : heightAt noise cx cz x z < y
    · rw [if_neg (by omega), if_pos h1]
    · rw [if_pos (by omega), if_neg h1]
      rfl
  · intro w cx cz hr
    have hb := heightAt_bounds w.noise2D cx cz 8 8
    have hdata := generateChunkData_no_trees w.noise2D w.rand w.randIx cx cz hr
    have h8 : ((8 : Int)).toNat = 8 := rfl
    refine ⟨?_, ?_, ?_⟩
    · rw [getBlock_generateChunk w cx cz 8 8 0 (by norm_num) (by norm_num)
        (by norm_num) (by norm_num) (by norm_num) (by norm_num)]
      rw [hdata, h8, Int.toNat_zero]
      rw [terrainPass_get _ cx cz 8 0 8 (by norm_num) (by norm_num) (by norm_num)]
      rw [if_pos (by omega)]
      rfl
    · have hcast16 : ((heightAt w.noise2D cx cz 8 8 : Nat) : Int) < 16 := by
        exact_mod_cast (by omega : heightAt w.noise2D cx cz 8 8 < 16)
      rw [getBlock_generateChunk w cx cz 8 8 _ (by norm_num) (by norm_num)
        (by norm_num) (by norm_num) (Int.natCast_nonneg _) hcast16]
      rw [hdata, h8, Int.toNat_natCast]
      rw [terrainPass_get _ cx cz 8 _ 8 (by norm_num) (by omega) (by norm_num)]
      rw [if_pos (le_refl _)]
      unfold colType
      rw [if_neg (by omega), if_pos rfl]
    · by_cases h15 : heightAt w.noise2D cx cz 8 8 = 15
      · refine getBlock_out_of_range _ _ _ _ (Or.inr ?_)
        rw [h15]
        norm_num
      · have hlt : heightAt w.noise2D cx cz 8 8 + 1 < 16 := by omega
        have hcast : ((heightAt w.noise2D cx cz 8 8 : Int) + 1) =
            ((heightAt w.noise2D cx cz 8 8 + 1 : Nat) : Int) := by
          push_cast
          ring
        have hcast16 : ((heightAt w.noise2D cx cz 8 8 + 1 : Nat) : Int) < 16 := by
          exact_mod_cast hlt
        rw [hcast]
        rw [getBlock_generateChunk w cx cz 8 8 _ (by norm_num) (by norm_num)
          (by norm_num) (by norm_num) (Int.natCast_nonneg _) hcast16]
        rw [hdata, h8, Int.toNat_natCast]
        rw [terrainPass_get _ cx cz 8 _ 8 (by norm_num) hlt (by norm_num)]
        rw [if_neg (by omega)]

/-- Witness for C2: the scenario clause applied to a fresh world whose
random stream is constantly `1/2` (so no tree is ever placed), at chunk
`(0, 0)`. -/
theorem terrain_height_pass_spec_witness :
    getBlock (generateChunk (World.init (fun _ _ _ => 0) 0 (fun _ => 1 / 2)) 0 0)
        (16 * 0 + 8) 0 (16 * 0 + 8) = BEDROCK ∧
      getBlock (generateChunk (World.init (fun _ _ _ => 0) 0 (fun _ => 1 / 2)) 0 0)
        (16 * 0 + 8)
        (heightAt (World.init (fun _ _ _ => 0) 0 (fun _ => 1 / 2)).noise2D 0 0 8 8 : Int)
        (16 * 0 + 8) = GRASS ∧
      getBlock (generateChunk (World.init (fun _ _ _ => 0) 0 (fun _ => 1 / 2)) 0 0)
        (16 * 0 + 8)
        ((heightAt (World.init (fun _ _ _ => 0) 0 (fun _ => 1 / 2)).noise2D 0 0 8 8 : Int) + 1)
        (16 * 0 + 8) = AIR :=
  terrain_height_pass_spec.2.2 (World.init (fun _ _ _ => 0) 0 (fun _ => 1 / 2)) 0 0
    (fun n => by norm_num [World.init])

/-!  ## saveWorld / loadWorld lemmas -/

theorem mapLookup_mem_map_fst {α : Type} (m : List (Key × α)) (k : Key) (v : α)
    (h : mapLookup m k = some v) : k ∈ m.map Prod.fst := by
  induction m with
  | nil => simp [mapLookup] at h
  | cons kv rest ih =>
    obtain ⟨k₀, v₀⟩ := kv
    by_cases h0 : k₀ = k
    · simp [h0]
    · simp only [mapLookup, if_neg h0] at h
      simp [ih h]

theorem filterMap_writes_map_fst_sublist (m : List (Key × Vol)) (l : List Key) :
    ((l.filterMap fun k => (mapLookup m k).map fun v => (k, v)).map Prod.fst).Sublist
      l := by
  induction l with
  | nil => simp
  | cons k tl ih =>
    cases ho : mapLookup m k with
    | none => simpa [List.filterMap_cons, ho] using ih.cons k
    | some v => simpa [List.filterMap_cons, ho] using ih.cons₂ k

theorem saveWrites_map_fst_sublist (w : World) :
    ((saveWrites w).map Prod.fst).Sublist w.dirtyChunks :=
  filterMap_writes_map_fst_sublist w.chunksData w.dirtyChunks

theorem saveWrites_map_fst_of_inv (w : World) (hinv : DirtyInv w) :
    (saveWrites w).map Prod.fst = w.dirtyChunks := by
  unfold saveWrites
  have h : ∀ l : List Key, (∀ k ∈ l, (mapLookup w.chunksData k).isSome) →
      ((l.filterMap fun k => (mapLookup w.chunksData k).map fun v => (k, v)).map
        Prod.fst) = l := by
    intro l hl
    induction l with
    | nil => simp
    | cons k tl ih =>
      obtain ⟨v, hv⟩ := Option.isSome_iff_exists.mp (hl k (List.mem_cons_self k tl))
      simp [List.filterMap_cons, hv, ih fun k' hk' => hl k' (List.mem_cons_of_mem _ hk')]
  exact h w.dirtyChunks hinv

theorem mem_saveWrites (w : World) (k : Key) (v : Vol) :
    (k, v) ∈ saveWrites w ↔
      k ∈ w.dirtyChunks ∧ mapLookup w.chunksData k = some v := by
  unfold saveWrites
  rw [List.mem_filterMap]
  constructor
  · rintro ⟨a, ha, hm⟩
    cases ho : mapLookup w.chunksData a with
    | none => rw [ho] at hm; simp at hm
    | some v' =>
      rw [ho] at hm
      simp only [Option.map_some', Option.some.injEq, Prod.mk.injEq] at hm
      obtain ⟨rfl, rfl⟩ := hm
      exact ⟨ha, ho⟩
  · rintro ⟨hd, hm⟩
    exact ⟨k, hd, by simp [hm]⟩

theorem foldl_dbWrite_frame (ws : List (Key × Vol)) (ok : Key → Bool)
    (c0 : List (Key × Vol)) (k : Key) (hk : k ∉ ws.map Prod.fst) :
    mapLookup (ws.foldl (fun c kv => if ok kv.1 then mapSet c kv.1 kv.2 else c) c0) k =
      mapLookup c0 k := by
  induction ws generalizing c0 with
  | nil => rfl
  | cons a tl ih =>
    simp only [List.map_cons, List.mem_cons] at hk
    push_neg at hk
    rw [List.foldl_cons]
    rw [ih _ hk.2]
    by_cases ho : ok a.1
    · rw [if_pos ho, mapLookup_set_ne _ _ _ _ hk.1]
    · rw [if_neg ho]

theorem foldl_dbWrite_lookup (ws : List (Key × Vol)) (ok : Key → Bool)
    (c0 : List (Key × Vol)) (k : Key) (v : Vol)
    (hnd : (ws.map Prod.fst).Nodup) (hkv : (k, v) ∈ ws) (hok : ok k = true) :
    mapLookup (ws.foldl (fun c kv => if ok kv.1 then mapSet c kv.1 kv.2 else c) c0) k =
      some v := by
  induction ws generalizing c0 with
  | nil => cases hkv
  | cons a tl ih =>
    simp only [List.map_cons, List.nodup_cons] at hnd
    rcases List.mem_cons.mp hkv with rfl | htl
    · rw [List.foldl_cons, if_pos hok]
      rw [foldl_dbWrite_frame tl ok _ k hnd.1]
      exact mapLookup_set_self _ _ _
    · have hk : k ∈ tl.map Prod.fst := by
        exact List.mem_map.mpr ⟨(k, v), htl, rfl⟩
      rw [List.foldl_cons]
      exact ih _ hnd.2 htl

theorem saveWorld_components (pos : ℚ × ℚ × ℚ) (inv : Nat) (ok : Key → Bool)
    (w : World) (db : Store) :
    (saveWorld pos inv ok w db).1.dirtyChunks =
        (if (saveWrites w).all (fun kv => ok kv.1) then [] else w.dirtyChunks) ∧
      (saveWorld pos inv ok w db).1.chunksData = w.chunksData ∧
      (saveWorld pos inv ok w db).1.knownChunkKeys =
        (saveWrites w).foldl (fun s kv => setAdd s kv.1) w.knownChunkKeys ∧
      (saveWorld pos inv ok w db).2.1.chunks =
        (saveWrites w).foldl
          (fun c kv => if ok kv.1 then mapSet c kv.1 kv.2 else c) db.chunks ∧
      (saveWorld pos inv ok w db).2.1.meta =
        some ⟨pos.1, pos.2.1, pos.2.2, inv, w.seed⟩ ∧
      (saveWorld pos inv ok w db).2.2 = (saveWrites w).all (fun kv => ok kv.1) := by
  unfold saveWorld
  exact ⟨rfl, rfl, rfl, rfl, rfl, rfl⟩

/-!  ## C8: saveWorld persistence and dirtiness -/

/-- C8.  `saveWorld` persists the world metadata and issues a durable
write for every key in the dirty set (under the reachable-state invariant
that every dirty key has cached data, `saveWrites` covers the dirty set
exactly); on success — i.e. exactly when every issued per-chunk write
succeeds — every dirty key's cached volume is durably stored and the
dirty set is cleared (precisely the keys written); if any per-chunk write
fails, the dirty set is left unchanged. -/
theorem saveWorld_spec (pos : ℚ × ℚ × ℚ) (inv : Nat) (ok : Key → Bool) (w : World)
    (db : Store) (hwf : w.dirtyChunks.Nodup) (hinv : DirtyInv w) :
    (saveWorld pos inv ok w db).2.1.meta =
        some ⟨pos.1, pos.2.1, pos.2.2, inv, w.seed⟩ ∧
      (saveWrites w).map Prod.fst = w.dirtyChunks ∧
      ((saveWorld pos inv ok w db).2.2 = true →
        (∀ k ∈ w.dirtyChunks,
          mapLookup (saveWorld pos inv ok w db).2.1.chunks k =
            mapLookup w.chunksData k) ∧
        (saveWorld pos inv ok w db).1.dirtyChunks = []) ∧
      ((saveWorld pos inv ok w db).2.2 = false →
        (saveWorld pos inv ok w db).1.dirtyChunks = w.dirtyChunks) ∧
      ((saveWorld pos inv ok w db).2.2 = true ↔ ∀ k ∈ w.dirtyChunks, ok k = true) := by
  obtain ⟨hdirty, _, _, hchunks, hmeta, hsucc⟩ := saveWorld_components pos inv ok w db
  have hkeys := saveWrites_map_fst_of_inv w hinv
  have hnd : ((saveWrites w).map Prod.fst).Nodup := by
    rw [hkeys]
    exact hwf
  have hall : (saveWrites w).all (fun kv => ok kv.1) = true ↔
      ∀ k ∈ w.dirtyChunks, ok k = true := by
    rw [List.all_eq_true]
    constructor
    · intro h k hk
      obtain ⟨v, hv⟩ := Option.isSome_iff_exists.mp (hinv k hk)
      exact h (k, v) ((mem_saveWrites w k v).mpr ⟨hk, hv⟩)
    · intro h kv hkv
      obtain ⟨k, v⟩ := kv
      exact h k ((mem_saveWrites w k v).mp hkv).1
  refine ⟨hmeta, hkeys, ?_, ?_, ?_⟩
  · intro hs
    rw [hsucc] at hs
    constructor
    · intro k hk
      obtain ⟨v, hv⟩ := Option.isSome_iff_exists.mp (hinv k hk)
      rw [hchunks, hv]
      exact foldl_dbWrite_lookup _ ok _ k v hnd ((mem_saveWrites w k v).mpr ⟨hk, hv⟩)
        (hall.mp hs k hk)
    · rw [hdirty, if_pos hs]
  · intro hs
    rw [hsucc] at hs
    rw [hdirty, if_neg (by simp [hs])]
  · rw [hsucc]
    exact hall

/-- Witness for C8: a world with one dirty cached chunk, all writes
succeeding. -/
theorem saveWorld_spec_witness :
    (saveWorld (0, 0, 0) 0 (fun _ => true)
        { World.init (fun _ _ _ => 0) 0 (fun _ => 0) with
          chunksData := [((0, 0), vol0)]
          dirtyChunks := [(0, 0)] } ⟨[], none⟩).2.1.meta =
      some ⟨0, 0, 0, 0, 0⟩ ∧
      (saveWrites { World.init (fun _ _ _ => 0) 0 (fun _ => 0) with
          chunksData := [((0, 0), vol0)]
          dirtyChunks := [(0, 0)] }).map Prod.fst = [(0, 0)] ∧ True := by
  have h := saveWorld_spec (0, 0, 0) 0 (fun _ => true)
    { World.init (fun _ _ _ => 0) 0 (fun _ => 0) with
      chunksData := [((0, 0), vol0)]
      dirtyChunks := [(0, 0)] } ⟨[], none⟩
    (by simp)
    (by
      intro k hk
      simp only [List.mem_singleton] at hk
      subst hk
      rfl)
  exact ⟨h.1, h.2.1, trivial⟩

/-!  ## C10 machinery: the dirty-subset-of-cache invariant -/

theorem setBlock_noop (w : World) (x y z : Int) (t : Nat)
    (h : mapLookup w.chunksData (chunkKey x z) = none ∨ y < 0 ∨ 16 ≤ y) :
    setBlock w x y z t = w := by
  unfold setBlock
  rcases h with h | h | h
  · simp [h]
  · cases hm : mapLookup w.chunksData (chunkKey x z) <;> simp [hm, h]
  · cases hm : mapLookup w.chunksData (chunkKey x z) <;> simp [hm, h]

theorem buildChunkMesh_dirtyChunks (w : World) (cx cz : Int) (data : Vol) :
    (buildChunkMesh w cx cz data).dirtyChunks = w.dirtyChunks := by
  unfold buildChunkMesh
  dsimp only
  split_ifs <;> rfl

theorem buildChunkMesh_known (w : World) (cx cz : Int) (data : Vol) :
    (buildChunkMesh w cx cz data).knownChunkKeys = w.knownChunkKeys := by
  unfold buildChunkMesh
  dsimp only
  split_ifs <;> rfl

theorem generateChunk_dirtyChunks (w : World) (cx cz : Int) :
    (generateChunk w cx cz).dirtyChunks = setAdd w.dirtyChunks (cx, cz) := by
  unfold generateChunk
  rw [buildChunkMesh_dirtyChunks]

theorem mapSet_lookup_isSome {α : Type} (m : List (Key × α)) (k j : Key) (v : α)
    (h : (mapLookup m j).isSome ∨ j = k) :
    (mapLookup (mapSet m k v) j).isSome := by
  by_cases hj : j = k
  · subst hj
    rw [mapLookup_set_self]
    rfl
  · rcases h with h | h
    · rw [mapLookup_set_ne _ _ _ _ hj]
      exact h
    · exact absurd h hj

theorem setBlock_dirtyInv (w : World) (x y z : Int) (t : Nat)
    (hinv : DirtyInv w) : DirtyInv (setBlock w x y z t) := by
  by_cases hm : (mapLookup w.chunksData (chunkKey x z)).isSome
  · obtain ⟨data, hdata⟩ := Option.isSome_iff_exists.mp hm
    by_cases hy : 0 ≤ y ∧ y < 16
    · rw [setBlock_eq w x y z t data hdata hy.1 hy.2]
      intro k hk
      rcases (mem_setAdd _ _ _).mp hk with hk' | rfl
      · exact mapSet_lookup_isSome _ _ _ _ (Or.inl (hinv k hk'))
      · exact mapSet_lookup_isSome _ _ _ _ (Or.inr rfl)
    · rw [setBlock_noop w x y z t (by omega)]
      exact hinv
  · rw [setBlock_noop w x y z t
      (Or.inl (Option.not_isSome_iff_eq_none.mp hm))]
    exact hinv

theorem generateChunk_dirtyInv (w : World) (cx cz : Int) (hinv : DirtyInv w) :
    DirtyInv (generateChunk w cx cz) := by
  intro k hk
  rw [generateChunk_chunksData]
  rw [generateChunk_dirtyChunks] at hk
  rcases (mem_setAdd _ _ _).mp hk with hk' | rfl
  · exact mapSet_lookup_isSome _ _ _ _ (Or.inl (hinv k hk'))
  · exact mapSet_lookup_isSome _ _ _ _ (Or.inr rfl)

theorem ensureChunk_dirtyInv (w : World) (db : Store) (cx cz : Int)
    (hinv : DirtyInv w) : DirtyInv (ensureChunk w db cx cz) := by
  unfold ensureChunk
  dsimp only
  cases hm : mapLookup w.chunksData (cx, cz) with
  | some data =>
    dsimp only
    intro k hk
    rw [buildChunkMesh_chunksData]
    rw [buildChunkMesh_dirtyChunks] at hk
    exact hinv k hk
  | none =>
    dsimp only
    split_ifs with h1 h2
    · exact hinv
    · cases hdb : mapLookup db.chunks (cx, cz) with
      | some data =>
        dsimp only
        intro k hk
        rw [buildChunkMesh_chunksData]
        rw [buildChunkMesh_dirtyChunks] at hk
        dsimp only at hk ⊢
        exact mapSet_lookup_isSome _ _ _ _ (Or.inl (hinv k hk))
      | none => exact generateChunk_dirtyInv w cx cz hinv
    · exact generateChunk_dirtyInv w cx cz hinv

theorem saveWorld_dirtyInv (pos : ℚ × ℚ × ℚ) (inv : Nat) (ok : Key → Bool)
    (w : World) (db : Store) (hinv : DirtyInv w) :
    DirtyInv (saveWorld pos inv ok w db).1 := by
  obtain ⟨hdirty, hdata, _, _, _, _⟩ := saveWorld_components pos inv ok w db
  intro k hk
  rw [hdata]
  rw [hdirty] at hk
  split_ifs at hk with h
  · cases hk
  · exact hinv k hk

theorem deleteWorld_dirtyInv (cn2d : (Nat → ℚ) → ℚ → ℚ → ℚ) (ns : Nat)
    (w : World) (db : Store) : DirtyInv (deleteWorld cn2d ns w db).1 := by
  intro k hk
  cases hk

theorem evictStep_dirtyInv (acc : World × Store) (kv : Key × Vol)
    (hinv : DirtyInv acc.1) (hnd : acc.1.dirtyChunks.Nodup) :
    DirtyInv (evictStep acc kv).1 ∧ (evictStep acc kv).1.dirtyChunks.Nodup := by
  unfold evictStep
  dsimp only
  by_cases hd : kv.1 ∈ acc.1.dirtyChunks
  · rw [if_pos hd]
    constructor
    · intro k hk
      dsimp only at hk ⊢
      have hkne : k ≠ kv.1 := by
        intro he
        exact not_mem_setDel _ _ hnd (he ▸ hk)
      have hkd : k ∈ acc.1.dirtyChunks :=
        (mem_setDel_of_ne _ _ _ hkne).mp hk
      rw [mapLookup_erase_ne _ _ _ hkne]
      exact hinv k hkd
    · exact setDel_nodup _ _ hnd
  · rw [if_neg hd]
    constructor
    · intro k hk
      dsimp only at hk ⊢
      have hkne : k ≠ kv.1 := fun he => hd (he ▸ hk)
      rw [mapLookup_erase_ne _ _ _ hkne]
      exact hinv k hk
    · exact hnd

theorem evictFold_dirtyInv (l : List (Key × Vol)) (acc : World × Store)
    (hinv : DirtyInv acc.1) (hnd : acc.1.dirtyChunks.Nodup) :
    DirtyInv (l.foldl evictStep acc).1 ∧
      (l.foldl evictStep acc).1.dirtyChunks.Nodup := by
  induction l generalizing acc with
  | nil => exact ⟨hinv, hnd⟩
  | cons a tl ih =>
    rw [List.foldl_cons]
    obtain ⟨h1, h2⟩ := evictStep_dirtyInv acc a hinv hnd
    exact ih _ h1 h2

theorem checkMemory_dirtyInv (px pz : ℚ) (w : World) (db : Store)
    (hinv : DirtyInv w) (hnd : w.dirtyChunks.Nodup) :
    DirtyInv (checkMemory px pz w db).1 := by
  unfold checkMemory
  dsimp only
  split_ifs with h
  · exact hinv
  · exact (evictFold_dirtyInv _ _ hinv hnd).1

/-!  ## C10: the dirty set is always a subset of the RAM cache -/

/-- C10.  Every dirty chunk key has a cached volume, and every operation
preserves this inclusion: `setBlock`, chunk generation (both
`generateChunk` and the full `ensureChunk` streaming entry), `saveWorld`,
`deleteWorld`, and the eviction pass (which removes a key from the dirty
set in the same step in which it drops the volume).  Consequently, under
the invariant, `saveWorld` issues a write for every dirty key — its skip
branch for a dirty key with missing data never fires. -/
theorem dirty_subset_cache_invariant :
    (∀ (w : World) (x y z : Int) (t : Nat), DirtyInv w →
      DirtyInv (setBlock w x y z t)) ∧
    (∀ (w : World) (cx cz : Int), DirtyInv w → DirtyInv (generateChunk w cx cz)) ∧
    (∀ (w : World) (db : Store) (cx cz : Int), DirtyInv w →
      DirtyInv (ensureChunk w db cx cz)) ∧
    (∀ (pos : ℚ × ℚ × ℚ) (inv : Nat) (ok : Key → Bool) (w : World) (db : Store),
      DirtyInv w → DirtyInv (saveWorld pos inv ok w db).1) ∧
    (∀ (cn2d : (Nat → ℚ) → ℚ → ℚ → ℚ) (ns : Nat) (w : World) (db : Store),
      DirtyInv (deleteWorld cn2d ns w db).1) ∧
    (∀ (px pz : ℚ) (w : World) (db : Store), DirtyInv w → w.dirtyChunks.Nodup →
      DirtyInv (checkMemory px pz w db).1) ∧
    (∀ (w : World), DirtyInv w → ∀ k ∈ w.dirtyChunks,
      ∃ v, mapLookup w.chunksData k = some v ∧ (k, v) ∈ saveWrites w) :=
  ⟨setBlock_dirtyInv, generateChunk_dirtyInv, ensureChunk_dirtyInv,
    saveWorld_dirtyInv, deleteWorld_dirtyInv, checkMemory_dirtyInv,
    fun w hinv k hk => by
      obtain ⟨v, hv⟩ := Option.isSome_iff_exists.mp (hinv k hk)
      exact ⟨v, hv, (mem_saveWrites w k v).mpr ⟨hk, hv⟩⟩⟩

/-- Witness for C10: the invariant after a concrete `setBlock` on a fresh
world (whose dirty set is empty, so the invariant holds vacuously before
the call). -/
theorem dirty_subset_cache_invariant_witness :
    DirtyInv (setBlock (World.init (fun _ _ _ => 0) 0 (fun _ => 0)) 1 2 3 7) :=
  dirty_subset_cache_invariant.1 (World.init (fun _ _ _ => 0) 0 (fun _ => 0)) 1 2 3 7
    (fun k hk => by cases hk)

/-!  ## C9: the noise sample is a pure function of seed and coordinates -/

/-- C9.  `createNoiseGenerator` builds the noise function from the seed
alone: Mulberry32 is a pure function of the seed, and the third-party
`createNoise2D` (modelled from the spec, §4.1, as the arbitrary
deterministic parameter `cn2d`) is a pure function of that stream.  Both
the constructor and `loadWorld` establish `noise2D = cn2d (mulberry(seed))`,
and any two worlds satisfying that equation with equal seeds — e.g. the
same seed across process restarts — agree on every noise sample and
produce identical height-pass volumes for every chunk and local
coordinate (the vegetation pass excluded). -/
theorem noise_determinism (cn2d : (Nat → ℚ) → ℚ → ℚ → ℚ) :
    (∀ (s : Nat) (r : Nat → ℚ),
      (World.init cn2d s r).noise2D =
        cn2d (mulberryStream (World.init cn2d s r).seed)) ∧
    (∀ (w : World) (db : Store) (m : Meta), db.meta = some m →
      (loadWorld cn2d w db).1.noise2D =
        cn2d (mulberryStream (loadWorld cn2d w db).1.seed)) ∧
    (∀ w1 w2 : World,
      w1.noise2D = cn2d (mulberryStream w1.seed) →
      w2.noise2D = cn2d (mulberryStream w2.seed) →
      w1.seed = w2.seed →
      (∀ a b : ℚ, w1.noise2D a b = w2.noise2D a b) ∧
      (∀ (cx cz : Int) (x y z : Nat), x < 16 → y < 16 → z < 16 →
        terrainPass w1.noise2D cx cz (blockIndex x y z) =
          terrainPass w2.noise2D cx cz (blockIndex x y z))) := by
  refine ⟨fun s r => rfl, ?_, ?_⟩
  · intro w db m hm
    unfold loadWorld
    rw [hm]
  · intro w1 w2 h1 h2 hs
    have h : w1.noise2D = w2.noise2D := by rw [h1, h2, hs]
    exact ⟨fun a b => by rw [h], fun cx cz x y z _ _ _ => by rw [h]⟩

/-- Witness for C9: two fresh worlds built from the same seed with
different ambient random streams. -/
theorem noise_determinism_witness :
    (∀ a b : ℚ,
      (World.init (fun _ _ _ => 0) 7 (fun _ => 0)).noise2D a b =
        (World.init (fun _ _ _ => 0) 7 (fun _ => 1)).noise2D a b) ∧
    (∀ (cx cz : Int) (x y z : Nat), x < 16 → y < 16 → z < 16 →
      terrainPass (World.init (fun _ _ _ => 0) 7 (fun _ => 0)).noise2D cx cz
          (blockIndex x y z) =
        terrainPass (World.init (fun _ _ _ => 0) 7 (fun _ => 1)).noise2D cx cz
          (blockIndex x y z)) :=
  (noise_determinism (fun _ _ _ => 0)).2.2
    (World.init (fun _ _ _ => 0) 7 (fun _ => 0))
    (World.init (fun _ _ _ => 0) 7 (fun _ => 1)) rfl rfl rfl

/-!  ## C1: setBlock / saveWorld / loadWorld / stream-in round trip -/

theorem loadWorld_fields (cn2d : (Nat → ℚ) → ℚ → ℚ → ℚ) (w : World) (db : Store) :
    (loadWorld cn2d w db).1.chunksData = w.chunksData ∧
      (loadWorld cn2d w db).1.loadingChunks = w.loadingChunks ∧
      (loadWorld cn2d w db).1.knownChunkKeys =
        db.chunks.foldl (fun s kv => setAdd s kv.1) w.knownChunkKeys := by
  unfold loadWorld
  cases db.meta <;> exact ⟨rfl, rfl, rfl⟩

/-- C1.  For a world coordinate with `0 ≤ y < 16` whose chunk volume is
cached, `setBlock(x, y, z, t)`, then a successful `saveWorld`, then a
fresh `World` instance with `loadWorld`, then streaming the chunk back in
via `ensureChunk`, makes `getBlock(x, y, z)` on the fresh instance return
`t` (block ids are bytes, `t < 256`). -/
theorem roundtrip_spec (cn2d : (Nat → ℚ) → ℚ → ℚ → ℚ) (w : World) (db : Store)
    (x y z : Int) (t : Nat) (pos : ℚ × ℚ × ℚ) (inv : Nat) (ok : Key → Bool)
    (seed0 : Nat) (rand0 : Nat → ℚ)
    (hwfd : w.dirtyChunks.Nodup)
    (hc : (mapLookup w.chunksData (chunkKey x z)).isSome)
    (hy0 : 0 ≤ y) (hy1 : y < 16) (ht : t < 256)
    (hok : ∀ k, ok k = true) :
    getBlock
      (ensureChunk
        (loadWorld cn2d (World.init cn2d seed0 rand0)
          (saveWorld pos inv ok (setBlock w x y z t) db).2.1).1
        (saveWorld pos inv ok (setBlock w x y z t) db).2.1
        (chunkKey x z).1 (chunkKey x z).2)
      x y z = t := by
  obtain ⟨data, hdata⟩ := Option.isSome_iff_exists.mp hc
  have h_w1 := setBlock_eq w x y z t data hdata hy0 hy1
  have hd1 : (setBlock w x y z t).dirtyChunks = setAdd w.dirtyChunks (chunkKey x z) := by
    rw [h_w1]
  have hcd1 : (setBlock w x y z t).chunksData =
      mapSet w.chunksData (chunkKey x z) (volWrite data (localIndex x y z) t) := by
    rw [h_w1]
  have hnd1 : (setBlock w x y z t).dirtyChunks.Nodup := by
    rw [hd1]
    exact setAdd_nodup _ _ hwfd
  have hmem : (chunkKey x z, volWrite data (localIndex x y z) t) ∈
      saveWrites (setBlock w x y z t) := by
    refine (mem_saveWrites _ _ _).mpr ⟨?_, ?_⟩
    · rw [hd1]
      exact (mem_setAdd _ _ _).mpr (Or.inr rfl)
    · rw [hcd1]
      exact mapLookup_set_self _ _ _
  have hndw : ((saveWrites (setBlock w x y z t)).map Prod.fst).Nodup :=
    (saveWrites_map_fst_sublist _).nodup hnd1
  obtain ⟨_, _, _, hchunks, _, _⟩ :=
    saveWorld_components pos inv ok (setBlock w x y z t) db
  have hdb' : mapLookup (saveWorld pos inv ok (setBlock w x y z t) db).2.1.chunks
      (chunkKey x z) = some (volWrite data (localIndex x y z) t) := by
    rw [hchunks]
    exact foldl_dbWrite_lookup _ ok _ _ _ hndw hmem (hok _)
  obtain ⟨hwf1data, hwf1load, hwf1known⟩ :=
    loadWorld_fields cn2d (World.init cn2d seed0 rand0)
      (saveWorld pos inv ok (setBlock w x y z t) db).2.1
  have hknown : chunkKey x z ∈
      (loadWorld cn2d (World.init cn2d seed0 rand0)
        (saveWorld pos inv ok (setBlock w x y z t) db).2.1).1.knownChunkKeys := by
    rw [hwf1known]
    exact (mem_foldl_setAdd _ _ _).mpr
      (Or.inr (mapLookup_mem_map_fst _ _ _ hdb'))
  have hens : ensureChunk
      (loadWorld cn2d (World.init cn2d seed0 rand0)
        (saveWorld pos inv ok (setBlock w x y z t) db).2.1).1
      (saveWorld pos inv ok (setBlock w x y z t) db).2.1
      (chunkKey x z).1 (chunkKey x z).2 =
      buildChunkMesh
        { (loadWorld cn2d (World.init cn2d seed0 rand0)
            (saveWorld pos inv ok (setBlock w x y z t) db).2.1).1 with
          chunksData := mapSet
            (loadWorld cn2d (World.init cn2d seed0 rand0)
              (saveWorld pos inv ok (setBlock w x y z t) db).2.1).1.chunksData
            (chunkKey x z) (volWrite data (localIndex x y z) t) }
        (chunkKey x z).1 (chunkKey x z).2 (volWrite data (localIndex x y z) t) := by
    unfold ensureChunk
    dsimp only
    have heta : (((chunkKey x z).1, (chunkKey x z).2) : Key) = chunkKey x z := rfl
    rw [heta]
    have hnone : mapLookup
        (loadWorld cn2d (World.init cn2d seed0 rand0)
          (saveWorld pos inv ok (setBlock w x y z t) db).2.1).1.chunksData
        (chunkKey x z) = none := by
      rw [hwf1data]
      rfl
    rw [hnone]
    dsimp only
    rw [if_pos hknown]
    rw [if_neg (by
      rw [hwf1load]
      exact List.not_mem_nil _)]
    rw [hdb']
  have hlook : mapLookup
      (ensureChunk
        (loadWorld cn2d (World.init cn2d seed0 rand0)
          (saveWorld pos inv ok (setBlock w x y z t) db).2.1).1
        (saveWorld pos inv ok (setBlock w x y z t) db).2.1
        (chunkKey x z).1 (chunkKey x z).2).chunksData (chunkKey x z) =
      some (volWrite data (localIndex x y z) t) := by
    rw [hens, buildChunkMesh_chunksData]
    dsimp only
    exact mapLookup_set_self _ _ _
  unfold getBlock
  rw [hlook]
  dsimp only
  rw [if_neg (by omega)]
  rw [volWrite_self, Nat.mod_eq_of_lt ht]

/-- Witness for C1: a concrete cached chunk at key `(0, 0)`, writing
type `7` at `(1, 2, 3)`. -/
theorem roundtrip_spec_witness :
    getBlock
      (ensureChunk
        (loadWorld (fun _ _ _ => 0)
          (World.init (fun _ _ _ => 0) 0 (fun _ => 0))
          (saveWorld (0, 0, 0) 0 (fun _ => true)
            (setBlock { World.init (fun _ _ _ => 0) 0 (fun _ => 0) with
              chunksData := [((0, 0), vol0)] } 1 2 3 7) ⟨[], none⟩).2.1).1
        (saveWorld (0, 0, 0) 0 (fun _ => true)
          (setBlock { World.init (fun _ _ _ => 0) 0 (fun _ => 0) with
            chunksData := [((0, 0), vol0)] } 1 2 3 7) ⟨[], none⟩).2.1
        (chunkKey 1 3).1 (chunkKey 1 3).2)
      1 2 3 = 7 := by
  refine roundtrip_spec (fun _ _ _ => 0)
    { World.init (fun _ _ _ => 0) 0 (fun _ => 0) with chunksData := [((0, 0), vol0)] }
    ⟨[], none⟩ 1 2 3 7 (0, 0, 0) 0 (fun _ => true) 0 (fun _ => 0)
    (by exact List.Pairwise.nil) ?_ (by norm_num) (by norm_num) (by norm_num)
    (fun _ => rfl)
  have hkey : chunkKey 1 3 = ((0 : Int), (0 : Int)) := by decide
  rw [hkey]
  rfl

/-!  ## C7 machinery: the eviction pass -/

theorem mapLookup_eq_of_mem_wf {α : Type} (m : List (Key × α)) (k : Key) (v : α)
    (hwf : MapWF m) (hm : (k, v) ∈ m) : mapLookup m k = some v := by
  induction m with
  | nil => cases hm
  | cons a tl ih =>
    simp only [MapWF, List.map_cons, List.nodup_cons] at hwf
    rcases List.mem_cons.mp hm with rfl | htl
    · simp [mapLookup]
    · have hk : k ∈ tl.map Prod.fst := List.mem_map.mpr ⟨(k, v), htl, rfl⟩
      have hne : a.1 ≠ k := fun he => hwf.1 (he ▸ hk)
      obtain ⟨a1, a2⟩ := a
      simp only [mapLookup, if_neg hne]
      exact ih hwf.2 htl

theorem evictStep_components (acc : World × Store) (kv : Key × Vol) :
    (evictStep acc kv).1.chunksData = mapErase acc.1.chunksData kv.1 ∧
      (evictStep acc kv).1.chunks = mapErase acc.1.chunks kv.1 ∧
      (evictStep acc kv).1.dirtyChunks =
        (if kv.1 ∈ acc.1.dirtyChunks then setDel acc.1.dirtyChunks kv.1
          else acc.1.dirtyChunks) ∧
      (evictStep acc kv).1.knownChunkKeys =
        (if kv.1 ∈ acc.1.dirtyChunks then setAdd acc.1.knownChunkKeys kv.1
          else acc.1.knownChunkKeys) ∧
      (evictStep acc kv).2.chunks =
        (if kv.1 ∈ acc.1.dirtyChunks then mapSet acc.2.chunks kv.1 kv.2
          else acc.2.chunks) := by
  unfold evictStep
  dsimp only
  split_ifs with h <;> exact ⟨rfl, rfl, rfl, rfl, rfl⟩

theorem evictStep_wfs (acc : World × Store) (kv : Key × Vol)
    (h1 : acc.1.dirtyChunks.Nodup) (h2 : MapWF acc.1.chunksData)
    (h3 : MapWF acc.1.chunks) :
    (evictStep acc kv).1.dirtyChunks.Nodup ∧
      MapWF (evictStep acc kv).1.chunksData ∧
      MapWF (evictStep acc kv).1.chunks := by
  obtain ⟨hc, hm, hd, _, _⟩ := evictStep_components acc kv
  refine ⟨?_, ?_, ?_⟩
  · rw [hd]
    split_ifs
    · exact setDel_nodup _ _ h1
    · exact h1
  · rw [hc]
    exact mapErase_wf _ _ h2
  · rw [hm]
    exact mapErase_wf _ _ h3

theorem evictStep_frame (acc : World × Store) (kv : Key × Vol) (k : Key)
    (hk : k ≠ kv.1) :
    mapLookup (evictStep acc kv).1.chunksData k = mapLookup acc.1.chunksData k ∧
      mapLookup (evictStep acc kv).1.chunks k = mapLookup acc.1.chunks k ∧
      (k ∈ (evictStep acc kv).1.dirtyChunks ↔ k ∈ acc.1.dirtyChunks) ∧
      (k ∈ (evictStep acc kv).1.knownChunkKeys ↔ k ∈ acc.1.knownChunkKeys) ∧
      mapLookup (evictStep acc kv).2.chunks k = mapLookup acc.2.chunks k := by
  obtain ⟨hc, hm, hd, hkn, hdb⟩ := evictStep_components acc kv
  refine ⟨?_, ?_, ?_, ?_, ?_⟩
  · rw [hc]
    exact mapLookup_erase_ne _ _ _ hk
  · rw [hm]
    exact mapLookup_erase_ne _ _ _ hk
  · rw [hd]
    split_ifs
    · exact mem_setDel_of_ne _ _ _ hk
    · exact Iff.rfl
  · rw [hkn]
    split_ifs
    · rw [mem_setAdd]
      exact or_iff_left hk
    · exact Iff.rfl
  · rw [hdb]
    split_ifs
    · exact mapLookup_set_ne _ _ _ _ hk
    · rfl

theorem evictFold_frame (l : List (Key × Vol)) (acc : World × Store) (k : Key)
    (hk : k ∉ l.map Prod.fst) :
    mapLookup (l.foldl evictStep acc).1.chunksData k =
        mapLookup acc.1.chunksData k ∧
      mapLookup (l.foldl evictStep acc).1.chunks k = mapLookup acc.1.chunks k ∧
      (k ∈ (l.foldl evictStep acc).1.dirtyChunks ↔ k ∈ acc.1.dirtyChunks) ∧
      (k ∈ (l.foldl evictStep acc).1.knownChunkKeys ↔
        k ∈ acc.1.knownChunkKeys) ∧
      mapLookup (l.foldl evictStep acc).2.chunks k = mapLookup acc.2.chunks k := by
  induction l generalizing acc with
  | nil => exact ⟨rfl, rfl, Iff.rfl, Iff.rfl, rfl⟩
  | cons a tl ih =>
    simp only [List.map_cons, List.mem_cons] at hk
    push_neg at hk
    rw [List.foldl_cons]
    obtain ⟨i1, i2, i3, i4, i5⟩ := ih (evictStep acc a) hk.2
    obtain ⟨s1, s2, s3, s4, s5⟩ := evictStep_frame acc a k hk.1
    exact ⟨i1.trans s1, i2.trans s2, i3.trans s3, i4.trans s4, i5.trans s5⟩

theorem evictStep_self (acc : World × Store) (kv : Key × Vol)
    (hnd : acc.1.dirtyChunks.Nodup) (hwfc : MapWF acc.1.chunksData)
    (hwfm : MapWF acc.1.chunks) :
    mapLookup (evictStep acc kv).1.chunksData kv.1 = none ∧
      mapLookup (evictStep acc kv).1.chunks kv.1 = none ∧
      kv.1 ∉ (evictStep acc kv).1.dirtyChunks ∧
      (kv.1 ∈ acc.1.dirtyChunks →
        mapLookup (evictStep acc kv).2.chunks kv.1 = some kv.2 ∧
        kv.1 ∈ (evictStep acc kv).1.knownChunkKeys) := by
  obtain ⟨hc, hm, hd, hkn, hdb⟩ := evictStep_components acc kv
  refine ⟨?_, ?_, ?_, ?_⟩
  · rw [hc]
    exact mapLookup_erase_self _ _ hwfc
  · rw [hm]
    exact mapLookup_erase_self _ _ hwfm
  · rw [hd]
    split_ifs with h
    · exact not_mem_setDel _ _ hnd
    · exact h
  · intro h
    rw [hdb, hkn, if_pos h, if_pos h]
    exact ⟨mapLookup_set_self _ _ _, (mem_setAdd _ _ _).mpr (Or.inr rfl)⟩

theorem evictFold_spec (l : List (Key × Vol)) (acc : World × Store)
    (hnd : (l.map Prod.fst).Nodup)
    (hdnd : acc.1.dirtyChunks.Nodup)
    (hwfc : MapWF acc.1.chunksData) (hwfm : MapWF acc.1.chunks) :
    ∀ kv ∈ l,
      mapLookup (l.foldl evictStep acc).1.chunksData kv.1 = none ∧
        mapLookup (l.foldl evictStep acc).1.chunks kv.1 = none ∧
        kv.1 ∉ (l.foldl evictStep acc).1.dirtyChunks ∧
        (kv.1 ∈ acc.1.dirtyChunks →
          mapLookup (l.foldl evictStep acc).2.chunks kv.1 = some kv.2 ∧
          kv.1 ∈ (l.foldl evictStep acc).1.knownChunkKeys) := by
  induction l generalizing acc with
  | nil => intro kv hkv; cases hkv
  | cons a tl ih =>
    simp only [List.map_cons, List.nodup_cons] at hnd
    obtain ⟨w1, w2, w3⟩ := evictStep_wfs acc a hdnd hwfc hwfm
    intro kv hkv
    rcases List.mem_cons.mp hkv with rfl | htl
    · rw [List.foldl_cons]
      obtain ⟨s1, s2, s3, s4⟩ := evictStep_self acc kv hdnd hwfc hwfm
      obtain ⟨f1, f2, f3, f4, f5⟩ := evictFold_frame tl (evictStep acc kv) kv.1 hnd.1
      refine ⟨f1.trans s1, f2.trans s2, fun hm => s3 (f3.mp hm), fun hd => ?_⟩
      obtain ⟨d1, d2⟩ := s4 hd
      exact ⟨f5.trans d1, f4.mpr d2⟩
    · rw [List.foldl_cons]
      have hkne : kv.1 ≠ a.1 := by
        intro he
        exact hnd.1 (he ▸ List.mem_map.mpr ⟨kv, htl, rfl⟩)
      obtain ⟨i1, i2, i3, i4⟩ := ih (evictStep acc a) hnd.2 w1 w2 w3 kv htl
      obtain ⟨s1, s2, s3, s4, s5⟩ := evictStep_frame acc a kv.1 hkne
      refine ⟨i1, i2, i3, fun hd => ?_⟩
      exact i4 (s3.mpr hd)

theorem rankedEntries_perm (cx cz : Int) (w : World) :
    (rankedEntries cx cz w).Perm w.chunksData :=
  List.mergeSort_perm _ _

theorem rankedEntries_sorted (cx cz : Int) (w : World) :
    (rankedEntries cx cz w).Pairwise
      (fun a b => distSq (cx, cz) b.1 ≤ distSq (cx, cz) a.1) := by
  have h := @List.sorted_mergeSort (Key × Vol)
    (fun a b => decide (distSq (cx, cz) b.1 ≤ distSq (cx, cz) a.1))
    (by
      intro a b c hab hbc
      simp only [decide_eq_true_eq] at hab hbc ⊢
      exact le_trans hbc hab)
    (by
      intro a b
      simp only [Bool.or_eq_true, decide_eq_true_eq]
      exact le_total _ _)
    w.chunksData
  exact h.imp fun hab => of_decide_eq_true hab

theorem checkMemory_eq_fold (px pz : ℚ) (w : World) (db : Store)
    (h : ¬ w.chunksData.length ≤ 500) :
    checkMemory px pz w db =
      ((rankedEntries ⌊px / 16⌋ ⌊pz / 16⌋ w).take 50).foldl evictStep (w, db) := by
  simp only [checkMemory, if_neg h]

/-!  ## C7: the eviction pass -/

/-- C7.  `checkMemory` is a no-op at 500 or fewer cached chunk volumes.
Above the cap it ranks all cached entries by squared planar distance from
the viewer's chunk coordinate, in descending order (a stable sort
permutation of the cache), and evicts exactly the first 50 (all, were
fewer cached — `take` truncates): each evicted key loses its RAM volume
and its mesh handle, its dirty flag is cleared, and if it was dirty its
cached volume is durably written and the key is added to the known set.
Every other key's volume, mesh, dirty flag, and durable record are
untouched. -/
theorem checkMemory_spec (px pz : ℚ) (w : World) (db : Store)
    (hwfc : MapWF w.chunksData) (hwfd : w.dirtyChunks.Nodup)
    (hwfm : MapWF w.chunks) :
    (w.chunksData.length ≤ 500 → checkMemory px pz w db = (w, db)) ∧
    (500 < w.chunksData.length →
      (rankedEntries ⌊px / 16⌋ ⌊pz / 16⌋ w).Perm w.chunksData ∧
      (rankedEntries ⌊px / 16⌋ ⌊pz / 16⌋ w).Pairwise
        (fun a b => distSq (⌊px / 16⌋, ⌊pz / 16⌋) b.1 ≤
          distSq (⌊px / 16⌋, ⌊pz / 16⌋) a.1) ∧
      ((rankedEntries ⌊px / 16⌋ ⌊pz / 16⌋ w).take 50).length = 50 ∧
      (∀ kv ∈ (rankedEntries ⌊px / 16⌋ ⌊pz / 16⌋ w).take 50,
        mapLookup w.chunksData kv.1 = some kv.2 ∧
        mapLookup (checkMemory px pz w db).1.chunksData kv.1 = none ∧
        mapLookup (checkMemory px pz w db).1.chunks kv.1 = none ∧
        kv.1 ∉ (checkMemory px pz w db).1.dirtyChunks ∧
        (kv.1 ∈ w.dirtyChunks →
          mapLookup (checkMemory px pz w db).2.chunks kv.1 = some kv.2 ∧
          kv.1 ∈ (checkMemory px pz w db).1.knownChunkKeys)) ∧
      (∀ k, k ∉ ((rankedEntries ⌊px / 16⌋ ⌊pz / 16⌋ w).take 50).map Prod.fst →
        mapLookup (checkMemory px pz w db).1.chunksData k =
          mapLookup w.chunksData k ∧
        mapLookup (checkMemory px pz w db).1.chunks k = mapLookup w.chunks k ∧
        (k ∈ (checkMemory px pz w db).1.dirtyChunks ↔ k ∈ w.dirtyChunks) ∧
        mapLookup (checkMemory px pz w db).2.chunks k = mapLookup db.chunks k)) := by
  constructor
  · intro h
    simp only [checkMemory, if_pos h]
  · intro h
    have hnle : ¬ w.chunksData.length ≤ 500 := by omega
    have hperm := rankedEntries_perm ⌊px / 16⌋ ⌊pz / 16⌋ w
    have hSnodup : ((rankedEntries ⌊px / 16⌋ ⌊pz / 16⌋ w).map Prod.fst).Nodup :=
      ((hperm.map Prod.fst).symm).nodup hwfc
    have hVnodup : (((rankedEntries ⌊px / 16⌋ ⌊pz / 16⌋ w).take 50).map
        Prod.fst).Nodup :=
      ((List.take_sublist 50 _).map Prod.fst).nodup hSnodup
    have hfold := checkMemory_eq_fold px pz w db hnle
    refine ⟨hperm, rankedEntries_sorted _ _ w, ?_, ?_, ?_⟩
    · rw [List.length_take, hperm.length_eq]
      omega
    · intro kv hkv
      have hmemS : kv ∈ rankedEntries ⌊px / 16⌋ ⌊pz / 16⌋ w :=
        List.mem_of_mem_take hkv
      have hmemC : kv ∈ w.chunksData := hperm.subset hmemS
      obtain ⟨e1, e2, e3, e4⟩ :=
        evictFold_spec _ (w, db) hVnodup hwfd hwfc hwfm kv hkv
      rw [hfold]
      exact ⟨mapLookup_eq_of_mem_wf _ _ _ hwfc hmemC, e1, e2, e3, e4⟩
    · intro k hk
      rw [hfold]
      obtain ⟨f1, f2, f3, _, f5⟩ := evictFold_frame _ (w, db) k hk
      exact ⟨f1, f2, f3, f5⟩

set_option maxRecDepth 4000 in
/-- Witness for C7: the no-op branch on a fresh (empty-cache) world, and
the 50-eviction count on a world caching 501 chunk volumes. -/
theorem checkMemory_spec_witness :
    checkMemory 0 0 (World.init (fun _ _ _ => 0) 0 (fun _ => 0)) ⟨[], none⟩ =
        (World.init (fun _ _ _ => 0) 0 (fun _ => 0), (⟨[], none⟩ : Store)) ∧
      ((rankedEntries ⌊(0 : ℚ) / 16⌋ ⌊(0 : ℚ) / 16⌋
        { World.init (fun _ _ _ => 0) 0 (fun _ => 0) with
          chunksData := (List.range 501).map
            fun i : Nat => ((((i : Int), (0 : Int)) : Key), vol0) }).take
          50).length = 50 := by
  have hwf501 : MapWF (((List.range 501).map
      fun i : Nat => ((((i : Int), (0 : Int)) : Key), vol0))) := by
    unfold MapWF
    rw [List.map_map]
    refine List.Nodup.map ?_ (List.nodup_range 501)
    intro a b hab
    simpa using hab
  have hlen : ((List.range 501).map
      fun i : Nat => ((((i : Int), (0 : Int)) : Key), vol0)).length = 501 := by
    rw [List.length_map, List.length_range]
  constructor
  · exact (checkMemory_spec 0 0 (World.init (fun _ _ _ => 0) 0 (fun _ => 0))
      ⟨[], none⟩ (by exact List.Pairwise.nil) (by exact List.Pairwise.nil)
      (by exact List.Pairwise.nil)).1 (by norm_num [World.init])
  · exact ((checkMemory_spec 0 0
      { World.init (fun _ _ _ => 0) 0 (fun _ => 0) with
        chunksData := (List.range 501).map
          fun i : Nat => ((((i : Int), (0 : Int)) : Key), vol0) }
      ⟨[], none⟩ hwf501 (by exact List.Pairwise.nil) (by exact List.Pairwise.nil)).2
      (by rw [hlen]; norm_num)).2.2.1

end VoxelWorld

